import Mathlib

/-!
Verification of the Discussion Orchestration Engine of the roundtable-web
repository (`src/services/discussion-engine.ts`, with the completion client
from `src/services/llm-client.ts`).

The TypeScript sources are shallowly embedded as executable Lean functions.
All nondeterminism (the `Math.random` draws behind `randomChoice` and
`shuffleArray`, the streaming/non-streaming completion-client outcomes,
`Date.now()` clock reads, and the process environment) is captured by an
explicit `Env` oracle, threaded through the engine by counters.  The engine
itself is a pure state-passing translation of the source: generator `yield`s
become an accumulated event list, a thrown exception becomes a `some`
`thrown` field that aborts the enclosing loops exactly where the exception
would propagate.
-/

set_option linter.unusedVariables false

namespace Roundtable

/-- A single-quote character, used when embedding the source's string
literals that contain one. -/
def sq : String := String.singleton (Char.ofNat 39)

/-- JavaScript `a || b` for an optional string, where `undefined`, `null`
and the empty string are falsy. -/
def strTruthy : Option String → Bool
  | none => false
  | some s => !(s == "")

/-- JavaScript `a || b` on optional strings (`a` kept only when truthy). -/
def jsOr (a b : Option String) : Option String :=
  if strTruthy a then a else b

/-- JavaScript `a || b` where `a` is an optional string and `b` a plain
string fallback (e.g. `expert.aiModel || this.config.model`). -/
def jsOrStr (a : Option String) (b : String) : String :=
  match a with
  | some s => if s == "" then b else s
  | none => b

/-- JavaScript `a || b` for an optional number with default (`0` is falsy). -/
def jsOrNat (a : Option Nat) (b : Nat) : Nat :=
  match a with
  | some n => if n = 0 then b else n
  | none => b

/-- JavaScript `pattern ∈ s` substring test (`String.prototype.includes`). -/
def jsIncludes (s pat : String) : Bool :=
  decide (List.IsInfix pat.toList s.toList)

/-- Last `n` elements of a list — JavaScript `arr.slice(-n)`. -/
def lastN (l : List α) (n : Nat) : List α :=
  l.drop (l.length - n)

/-- Lookup in a JavaScript `Map` modelled as an association list. -/
def mapGet (m : List (String × α)) (k : String) : Option α :=
  (m.find? (fun p => p.1 == k)).map (·.2)

/-- Insertion into a JavaScript `Map` modelled as an association list:
replace the binding if the key exists, else append. -/
def mapSet (m : List (String × α)) (k : String) (v : α) : List (String × α) :=
  if (m.find? (fun p => p.1 == k)).isSome then
    m.map (fun p => if p.1 == k then (k, v) else p)
  else
    m ++ [(k, v)]

/-! ### Data model (from `src/types/index.ts`) -/

/-- Debate styles (`DebateStyle` union type). -/
inductive DebateStyle where
  | agreeable
  | challenging
  | questioning
  | building
  | contrasting
deriving DecidableEq, Repr

/-- Message roles (`MessageRole` union type). -/
inductive MessageRole where
  | EXPERT
  | MODERATOR
  | SYSTEM
deriving DecidableEq, Repr

/-- An expert of the roster (`Expert` interface). -/
structure Expert where
  id : String
  name : String
  role : String
  personality : String
  expertise : List String
  systemPrompt : String
  color : String
  avatar : Option String := none
  aiModel : Option String := none
  panelId : String
deriving DecidableEq, Repr

/-- A discussion message (`Message` interface); `Date` values are modelled
as `Nat` clock ticks supplied by the oracle. -/
structure Message where
  id : String
  content : String
  role : MessageRole
  round : Nat
  debateStyle : Option DebateStyle := none
  responseTo : Option String := none
  expertId : Option String := none
  expert : Option Expert := none
  discussionId : String
  createdAt : Nat
deriving DecidableEq, Repr

/-- Summary sentiment values (`DiscussionSummary.sentiment`). -/
inductive Sentiment where
  | positive
  | neutral
  | mixed
  | negative
deriving DecidableEq, Repr

/-- Structured end-of-discussion summary (`DiscussionSummary` interface).
The type is declared in `src/types/index.ts`; consensus levels are `ℚ`. -/
structure DiscussionSummary where
  keyTakeaways : List String
  actionItems : List String
  sentiment : Sentiment
  sentimentExplanation : String
  consensusLevel : ℚ
  consensusExplanation : String
  nextSteps : String
deriving DecidableEq, Repr

/-- Server-sent events produced by the engine (`SSEEvent` union type).
`round_complete.consensusScore` is always supplied by the engine, so it is
embedded as a plain `ℚ`. -/
inductive SSEEvent where
  | expert_start (expertId expertName expertColor : String)
      (round : Nat) (debateStyle : DebateStyle)
  | token (content : String)
  | expert_complete (messageId expertId fullContent : String)
  | round_complete (round : Nat) (consensusScore : ℚ)
  | moderator_prompt (message : String)
  | discussion_summary (summary : DiscussionSummary)
  | discussion_complete (discussionId : String)
  | error (message : String)
deriving DecidableEq, Repr

/-- Outcome of one call to the streaming completion client: the fragments
received, then either natural completion or a thrown error after them. -/
inductive StreamOutcome where
  | success (tokens : List String)
  | failure (tokens : List String) (errMsg : String)
deriving DecidableEq, Repr

/-- Oracle for everything outside the engine's own control flow: random
draws, completion-client call outcomes, the clock, and the process
environment.  Each kind of effect is read off at an explicit counter that
the engine threads through its execution. -/
structure Env where
  pick : Nat → Nat
  streamResult : Nat → StreamOutcome
  genResponse : Nat → Option String
  now : Nat → Nat
  openrouterApiKey : Option String
  openaiApiKey : Option String

/-- Modelled from the spec: `randomChoice` is imported from `@/lib/utils`,
whose source is not in the repository; the spec says it picks "uniformly at
random" from a list.  Modelled as indexing by one `pick` oracle draw modulo
the length (the default is never used on the engine's nonempty lists). -/
def randomChoice (env : Env) (pc : Nat) (l : List α) (dflt : α) : α :=
  l.getD (env.pick pc % l.length) dflt

/-- Option removal of the element at an index, keeping the rest in order. -/
def extractIdx : List α → Nat → Option (α × List α)
  | [], _ => none
  | x :: xs, 0 => some (x, xs)
  | x :: xs, n + 1 => (extractIdx xs n).map (fun p => (p.1, x :: p.2))

/-- Modelled from the spec: `shuffleArray` is imported from `@/lib/utils`,
whose source is not in the repository; the spec says the roster is
"randomly permuted for that round only (fresh shuffle per round)".
Modelled as Fisher–Yates-style selection driven by the `pick` oracle:
repeatedly extract the element at an oracle-chosen index.  The fuel is the
initial length, so the fuel-exhausted branch is unreachable. -/
def shuffleGo (env : Env) : Nat → List α → Nat → List α × Nat
  | 0, l, pc => (l, pc)
  | _ + 1, [], pc => ([], pc)
  | fuel + 1, x :: xs, pc =>
      match extractIdx (x :: xs) (env.pick pc % (x :: xs).length) with
      | some (a, rest) =>
          let t := shuffleGo env fuel rest (pc + 1)
          (a :: t.1, t.2)
      | none => (x :: xs, pc)

/-- Modelled from the spec: see `shuffleGo`. -/
def shuffleArray (env : Env) (l : List α) (pc : Nat) : List α × Nat :=
  shuffleGo env l.length l pc

/-! ### Completion client (from `src/services/llm-client.ts`) -/

/-- The provider tag of the completion client. -/
inductive Provider where
  | openrouter
  | openai
deriving DecidableEq, Repr

/-- Printed provider name, for error messages. -/
def Provider.text : Provider → String
  | .openrouter => "openrouter"
  | .openai => "openai"

/-- Configuration accepted by the `LLMClient` constructor
(`LLMClientConfig` interface). -/
structure LLMClientConfig where
  model : String
  provider : Provider := .openrouter
  apiKey : Option String := none
  maxRetries : Option Nat := none
  retryDelay : Option Nat := none

/-- A constructed completion client. -/
structure LLMClient where
  model : String
  provider : Provider
  maxRetries : Nat
  retryDelay : Nat
  apiKey : String
deriving DecidableEq, Repr

/-- The `LLMClient` constructor: resolves the API key from the config or
the environment and throws `LLMClientError` when none is found.  The
`Except.error` carries the thrown message. -/
def LLMClient.construct (config : LLMClientConfig) (env : Env) :
    Except String LLMClient :=
  let maxRetries := jsOrNat config.maxRetries 3
  let retryDelay := jsOrNat config.retryDelay 2000
  let envKey :=
    match config.provider with
    | .openrouter => env.openrouterApiKey
    | .openai => env.openaiApiKey
  let apiKey := jsOr config.apiKey envKey
  if strTruthy apiKey then
    .ok { model := config.model, provider := config.provider,
          maxRetries := maxRetries, retryDelay := retryDelay,
          apiKey := apiKey.getD "" }
  else
    .error ("API key not found for provider " ++ config.provider.text ++
      ". Set " ++
      (match config.provider with
        | .openrouter => "OPENROUTER_API_KEY"
        | .openai => "OPENAI_API_KEY") ++
      " environment variable.")

/-! ### Discussion engine (from `src/services/discussion-engine.ts`) -/

/-- The engine's configuration (`DiscussionConfig` interface). -/
structure DiscussionConfig where
  topic : String
  experts : List Expert
  language : String
  moderatorMode : Bool
  totalRounds : Nat
  model : String
deriving DecidableEq, Repr

/-- The engine's mutable state (`DiscussionState` interface); the
`Map` of expert positions is an association list. -/
structure DiscussionState where
  currentRound : Nat
  messages : List Message
  expertPositions : List (String × List String)
  usedStylesThisRound : List DebateStyle
  isRunning : Bool
  consensusScore : ℚ
deriving DecidableEq, Repr

/-- Oracle read positions: one counter per effect kind (`Math.random`
draws, streaming calls, non-streaming calls, clock reads). -/
structure Ctrs where
  pick : Nat
  stream : Nat
  gen : Nat
  now : Nat
deriving DecidableEq, Repr

/-- One engine instance: the per-model client cache (`llmClients`), the
discussion state, and the oracle counters. -/
structure Exec where
  cache : List (String × LLMClient)
  st : DiscussionState
  ctrs : Ctrs
deriving DecidableEq, Repr

/-- Result of running a generator section: the events yielded (in order),
the engine afterwards, and the exception message if one escaped. -/
structure StepOut where
  events : List SSEEvent
  exec : Exec
  thrown : Option String
deriving DecidableEq, Repr

/-- The fixed style set, in source order (`DEBATE_STYLES`). -/
def DEBATE_STYLES : List DebateStyle :=
  [.agreeable, .challenging, .questioning, .building, .contrasting]

/-- Style instruction text (`STYLE_INSTRUCTIONS`). -/
def STYLE_INSTRUCTIONS : DebateStyle → String
  | .agreeable =>
      "Build on what others have said and add your expertise. Show agreement where appropriate."
  | .challenging =>
      "Challenge assumptions or point out potential issues with what" ++ sq ++
      "s been discussed. Be constructive but critical."
  | .questioning =>
      "Ask probing questions about the ideas presented. What details are missing? What concerns do you have?"
  | .building =>
      "Take the ideas further. How can we expand or improve on what" ++ sq ++
      "s been suggested?"
  | .contrasting =>
      "Offer a different perspective or alternative approach. What would you do differently?"

/-- Provocative follow-up questions (`PROVOCATIVE_ADDITIONS`). -/
def PROVOCATIVE_ADDITIONS : List String :=
  [" Also, do you see any potential conflicts between what" ++ sq ++ "s been proposed so far?",
   " What might the others be overlooking from your perspective?",
   " Are there any assumptions being made that you" ++ sq ++ "d challenge?",
   " What questions would you ask your colleagues before moving forward?",
   " What" ++ sq ++ "s the biggest risk you see in the current direction?"]

/-- The engine's state right after construction. -/
def initialState : DiscussionState :=
  { currentRound := 0, messages := [], expertPositions := [],
    usedStylesThisRound := [], isRunning := false, consensusScore := 0 }

/-- Engine construction: seeds the client cache with the default client. -/
def mkEngine (llmClient : LLMClient) : Exec :=
  { cache := [(llmClient.model, llmClient)],
    st := initialState,
    ctrs := { pick := 0, stream := 0, gen := 0, now := 0 } }

/-- Resolve (or lazily construct and cache) the completion client for an
expert (`getLLMClientForExpert`): the expert's model override if truthy,
else the discussion's fallback model.  A construction failure is the
`LLMClientError` thrown by the `LLMClient` constructor. -/
def getLLMClientForExpert (cfg : DiscussionConfig) (env : Env)
    (cache : List (String × LLMClient)) (expert : Expert) :
    Except String (LLMClient × List (String × LLMClient)) :=
  let model := jsOrStr expert.aiModel cfg.model
  match mapGet cache model with
  | some client => .ok (client, cache)
  | none =>
      match LLMClient.construct { model := model, provider := .openrouter } env with
      | .ok client => .ok (client, mapSet cache model client)
      | .error e => .error e

/-- Per-turn debate-style selection (`getDebateStyle`): if every style has
been used this round, reset the used-set and pick at random from all five
(the pick is not recorded); otherwise force `challenging` once at least two
styles have been used and `challenging` has not; otherwise pick at random
among the unused styles.  Returns the style, the new used-set, and the new
pick counter. -/
def getDebateStyle (env : Env) (pc : Nat) (used : List DebateStyle) :
    DebateStyle × List DebateStyle × Nat :=
  let availableStyles := DEBATE_STYLES.filter (fun style => decide (style ∉ used))
  if availableStyles.isEmpty then
    (randomChoice env pc DEBATE_STYLES .agreeable, [], pc + 1)
  else if DebateStyle.challenging ∉ used ∧ 2 ≤ used.length then
    (.challenging, used ++ [.challenging], pc)
  else
    let style := randomChoice env pc availableStyles .agreeable
    (style, used ++ [style], pc + 1)

/-- Language directive (`getLanguageInstruction`). -/
def getLanguageInstruction (cfg : DiscussionConfig) : String :=
  if cfg.language == "de" then
    "- Always answer in German, very important."
  else if cfg.language == "en" then
    "- Always answer in English."
  else
    "- Always answer in " ++ cfg.language ++ "."

/-- Rendering of the last messages for a prompt (`getRecentContext`,
default `numMessages = 4`). -/
def getRecentContext (st : DiscussionState) (numMessages : Nat := 4) : String :=
  if st.messages.isEmpty then ""
  else
    (lastN st.messages numMessages).foldl
      (fun context msg =>
        let speaker :=
          if msg.role = .MODERATOR then "Moderator"
          else jsOrStr (msg.expert.map (·.name)) "Unknown"
        context ++ speaker ++ ": " ++ msg.content ++ "\n")
      "\n\nMost recent exchanges:\n"

/-- Previously-covered-points reminder (`getExpertPreviousPoints`). -/
def getExpertPreviousPoints (st : DiscussionState) (expertName : String) : String :=
  match mapGet st.expertPositions expertName with
  | none => ""
  | some positions =>
      if positions.length = 0 then ""
      else
        "\nYou" ++ sq ++ "ve already covered these points: " ++
        String.intercalate "; " (lastN positions 3) ++ ". Add NEW insights only."

/-- Role-keyword category test: `keywords.some(kw => role.includes(kw))`. -/
def roleMatches (role : String) (keywords : List String) : Bool :=
  keywords.any (fun kw => jsIncludes role kw)

/-- The moderator-callout instruction appended to a turn question when one
of the last three log messages is a moderator comment. -/
def moderatorCallout (content : String) : String :=
  " The moderator has also commented: " ++ sq ++ content ++ sq ++
  " - please address this as well."

/-- Round- and role-specific question (`getRoundSpecificQuestion`).
Consumes one `pick` draw when a provocative addition is appended; returns
the question and the new pick counter.  (The unused `otherExperts` local of
the source is omitted.) -/
def getRoundSpecificQuestion (cfg : DiscussionConfig) (env : Env)
    (st : DiscussionState) (roundNum : Nat) (expert : Expert) (pc : Nat) :
    String × Nat :=
  let role := expert.role.toLower
  let baseQuestion :=
    if roundNum = 1 then
      "Give your initial expert assessment and key recommendations."
    else if roundNum = 2 then
      if roleMatches role ["business", "strategy", "director", "manager"] then
        expert.name ++ ", what do you think about the strategies proposed so far? What business risks do you see, and how can we ensure profitability?"
      else if roleMatches role ["technical", "developer", "engineer", "architect", "wordpress"] then
        expert.name ++ ", considering the requirements outlined, what technical architecture would you recommend? Any concerns with the proposed approach?"
      else if roleMatches role ["seo", "search", "organic"] then
        expert.name ++ ", given the constraints and content volume planned, how would you structure the SEO strategy? What are your thoughts on the approach discussed?"
      else if roleMatches role ["content", "editorial", "writer", "copy", "marketing"] then
        expert.name ++ ", how would you balance automation with quality content? What" ++ sq ++ "s your take on the scalability challenges mentioned?"
      else if roleMatches role ["social", "community", "media"] then
        expert.name ++ ", hearing all these strategies, how would you integrate social media to amplify this? What concerns do you have about community building?"
      else
        expert.name ++ ", what" ++ sq ++ "s your expert take on the discussion so far from your " ++ expert.role ++ " perspective?"
    else
      if roleMatches role ["business", "strategy", "director", "manager"] then
        expert.name ++ ", after hearing everyone" ++ sq ++ "s perspectives, what would be your final business recommendation? What should be the absolute priorities?"
      else if roleMatches role ["technical", "developer", "engineer", "architect", "wordpress"] then
        expert.name ++ ", considering all the feedback, what would your final technical implementation roadmap look like? Where do you see the biggest technical risks?"
      else if roleMatches role ["seo", "search", "organic"] then
        expert.name ++ ", integrating all the strategies discussed, what" ++ sq ++ "s your finalized SEO action plan? What do you think could make or break the goals?"
      else if roleMatches role ["content", "editorial", "writer", "copy", "marketing"] then
        expert.name ++ ", bringing together all considerations, what" ++ sq ++ "s your ultimate content strategy recommendation? How do we ensure sustainable growth?"
      else if roleMatches role ["social", "community", "media"] then
        expert.name ++ ", considering the full strategy now, how would you execute a plan that supports all these goals? What" ++ sq ++ "s your biggest concern?"
      else
        expert.name ++ ", given everything discussed, what are your top 3 actionable recommendations?"
  let withProvocative : String × Nat :=
    if 5 < st.messages.length ∧ 2 ≤ roundNum then
      (baseQuestion ++ randomChoice env pc PROVOCATIVE_ADDITIONS "", pc + 1)
    else (baseQuestion, pc)
  let recentModeratorMsgs :=
    (lastN st.messages 3).filter (fun msg => decide (msg.role = .MODERATOR))
  if 0 < recentModeratorMsgs.length then
    match recentModeratorMsgs.getLast? with
    | some lastModeratorMsg =>
        (withProvocative.1 ++ moderatorCallout lastModeratorMsg.content,
         withProvocative.2)
    | none => withProvocative
  else withProvocative

/-- Full turn prompt (`buildPrompt`); returns the prompt together with the
new pick counter (one draw may be consumed by the specific question). -/
def buildPrompt (cfg : DiscussionConfig) (env : Env) (st : DiscussionState)
    (expert : Expert) (roundNum : Nat) (debateStyle : DebateStyle) (pc : Nat) :
    String × Nat :=
  let otherExperts :=
    String.intercalate ", "
      ((cfg.experts.filter (fun e => !(e.name == expert.name))).map (·.name))
  let recentContext := getRecentContext st
  let languageInstruction := getLanguageInstruction cfg
  let qq := getRoundSpecificQuestion cfg env st roundNum expert pc
  let specificQuestion := qq.1
  let previousPoints := getExpertPreviousPoints st expert.name
  let focusInstruction :=
    if cfg.totalRounds ≤ roundNum then
      "Be very focused and conclusive in your final thoughts."
    else
      "Keep the discussion moving forward with fresh perspectives."
  (expert.systemPrompt ++
   "\n\nDISCUSSION TOPIC: " ++ cfg.topic ++
   "\n" ++ recentContext ++
   "\n" ++ previousPoints ++
   "\n\nROUND " ++ toString roundNum ++ " INSTRUCTIONS:\n- " ++
   STYLE_INSTRUCTIONS debateStyle ++
   "\n- Feel free to address other experts by name (" ++ otherExperts ++
   ")\n- Ask specific questions or request clarification if needed\n- Don" ++
   sq ++
   "t just agree - bring your unique perspective and expertise\n- If you disagree with something, explain why constructively\n- Build on ideas, challenge assumptions, or propose alternatives\n" ++
   languageInstruction ++
   "\n- " ++ focusInstruction ++
   "\n\nSPECIFIC QUESTION FOR YOU: " ++ specificQuestion ++
   "\n\nRespond as " ++ expert.name ++ " (" ++ expert.role ++
   "). Keep focused and practical (under 350 words).\nMake this feel like a real expert discussion - engage directly with your colleagues!\n",
   qq.2)

/-- Decimal digits to a number, most significant first. -/
def digitsToNat (l : List Char) : Nat :=
  l.foldl (fun acc c => acc * 10 + (c.toNat - 48)) 0

/-- Model of the JavaScript `parseFloat` builtin on the strings the engine
can meet: skip leading whitespace, then an optional sign followed by a
decimal `digits[.digits]` prefix (trailing text ignored); `none` plays the
role of `NaN`.  Implemented over the character list so that it evaluates by
kernel reduction. -/
def jsParseFloat (s : String) : Option ℚ :=
  let t0 := s.data.dropWhile Char.isWhitespace
  let sign : ℚ := match t0 with
    | '-' :: _ => -1
    | _ => 1
  let t := match t0 with
    | '-' :: rest => rest
    | _ => t0
  let intPart := t.takeWhile Char.isDigit
  let rest := t.drop intPart.length
  let fracPart := match rest with
    | '.' :: r => r.takeWhile Char.isDigit
    | _ => []
  if intPart.isEmpty && fracPart.isEmpty then none
  else
    some (sign * ((digitsToNat intPart : ℚ) +
      (digitsToNat fracPart : ℚ) / ((10 : ℚ) ^ fracPart.length)))

/-- Consensus analysis (`analyzeConsensus`): returns `0` without touching
the completion client when fewer than five messages exist; otherwise makes
exactly one non-streaming client call (counted by the `gen` counter),
parses the reply as a float clamped to `[0, 1]`, and absorbs parse or
client failures as `0.5`. -/
def analyzeConsensus (st : DiscussionState) (env : Env) (gc : Nat) : ℚ × Nat :=
  if st.messages.length < 5 then (0, gc)
  else
    let recentMessages := lastN st.messages 6
    let analysisPrompt :=
      "Analyze these expert discussion messages and rate the consensus level from 0.0 (complete disagreement) to 1.0 (full agreement).\n\nMessages:\n" ++
      String.intercalate "\n"
        (recentMessages.map (fun m =>
          jsOrStr (m.expert.map (·.name)) "Moderator" ++ ": " ++
          m.content.take 200 ++ "...")) ++
      "\n\nReply with ONLY a number between 0.0 and 1.0, nothing else."
    match env.genResponse gc with
    | none => (0.5, gc + 1)
    | some response =>
        match jsParseFloat response with
        | none => (0.5, gc + 1)
        | some score => (min 1 (max 0 score), gc + 1)

/-- Key-point extraction (`extractKeyPoints`): split on sentence-ending
punctuation, keep trimmed sentences longer than 20 characters, take 3. -/
def extractKeyPoints (content : String) : List String :=
  (((content.split (fun c => c == '.' || c == '!' || c == '?')).filter
      (fun s => 20 < s.trim.length)).take 3).map (·.trim)

/-- One expert turn (`runExpertTurn`): select a style, emit `expert_start`,
build the prompt, resolve the client (a construction failure here escapes
as a thrown exception, after the start event), then stream the completion.
On stream success the key points are tracked, a `Message` is appended and
`expert_complete` is emitted; on a thrown stream error the partial content
is discarded and a single `error` event is emitted. -/
def runExpertTurn (cfg : DiscussionConfig) (env : Env) (ex : Exec)
    (expert : Expert) (roundNum : Nat) : StepOut :=
  let sp := getDebateStyle env ex.ctrs.pick ex.st.usedStylesThisRound
  let debateStyle := sp.1
  let st1 := { ex.st with usedStylesThisRound := sp.2.1 }
  let startEv :=
    SSEEvent.expert_start expert.id expert.name expert.color roundNum debateStyle
  let pp := buildPrompt cfg env st1 expert roundNum debateStyle sp.2.2
  let temperature : ℚ := if cfg.totalRounds ≤ roundNum then 0.6 else 0.8
  match getLLMClientForExpert cfg env ex.cache expert with
  | .error e =>
      { events := [startEv],
        exec := { ex with st := st1, ctrs := { ex.ctrs with pick := pp.2 } },
        thrown := some e }
  | .ok (llmClient, cache1) =>
      match env.streamResult ex.ctrs.stream with
      | .success toks =>
          let fullContent := String.join toks
          let keyPoints := extractKeyPoints fullContent
          let existingPoints := (mapGet st1.expertPositions expert.name).getD []
          let positions1 :=
            mapSet st1.expertPositions expert.name (existingPoints ++ keyPoints)
          let message : Message :=
            { id := "msg_" ++ toString (env.now ex.ctrs.now) ++ "_" ++ expert.id,
              content := fullContent,
              role := .EXPERT,
              round := roundNum,
              debateStyle := some debateStyle,
              expertId := some expert.id,
              expert := some expert,
              discussionId := "",
              createdAt := env.now (ex.ctrs.now + 1) }
          let st2 := { st1 with expertPositions := positions1,
                                messages := st1.messages ++ [message] }
          { events := [startEv] ++ toks.map SSEEvent.token ++
              [SSEEvent.expert_complete message.id expert.id fullContent],
            exec := { cache := cache1, st := st2,
                      ctrs := { pick := pp.2, stream := ex.ctrs.stream + 1,
                                gen := ex.ctrs.gen, now := ex.ctrs.now + 2 } },
            thrown := none }
      | .failure toks errMsg =>
          { events := [startEv] ++ toks.map SSEEvent.token ++
              [SSEEvent.error ("Error getting response from " ++ expert.name ++
                ": " ++ errMsg)],
            exec := { cache := cache1, st := st1,
                      ctrs := { pick := pp.2, stream := ex.ctrs.stream + 1,
                                gen := ex.ctrs.gen, now := ex.ctrs.now } },
            thrown := none }

/-- The per-expert loop of a round: each expert's turn, followed by a
`moderator_prompt` event when moderator mode is on.  A thrown exception
aborts the remaining turns. -/
def runTurns (cfg : DiscussionConfig) (env : Env) :
    Exec → Nat → List Expert → StepOut
  | ex, _, [] => { events := [], exec := ex, thrown := none }
  | ex, roundNum, expert :: rest =>
      let t := runExpertTurn cfg env ex expert roundNum
      match t.thrown with
      | some e => { events := t.events, exec := t.exec, thrown := some e }
      | none =>
          let evs1 :=
            if cfg.moderatorMode then
              t.events ++ [SSEEvent.moderator_prompt (expert.name ++
                " has finished. You can add a comment or question, or skip to continue.")]
            else t.events
          let r := runTurns cfg env t.exec roundNum rest
          { events := evs1 ++ r.events, exec := r.exec, thrown := r.thrown }

/-- One complete round (`runRound`): reset the used-style set, pick the
expert order (roster order on the final round when `totalRounds ≥ 4`, a
fresh shuffle otherwise), run every turn, then analyze consensus and emit
`round_complete`. -/
def runRound (cfg : DiscussionConfig) (env : Env) (ex : Exec)
    (roundNum : Nat) : StepOut :=
  let st0 := { ex.st with currentRound := roundNum, usedStylesThisRound := [] }
  let isFinalRound := cfg.totalRounds ≤ roundNum ∧ 4 ≤ cfg.totalRounds
  let op : List Expert × Nat :=
    if isFinalRound then (cfg.experts, ex.ctrs.pick)
    else shuffleArray env cfg.experts ex.ctrs.pick
  let ex0 := { ex with st := st0, ctrs := { ex.ctrs with pick := op.2 } }
  let t := runTurns cfg env ex0 roundNum op.1
  match t.thrown with
  | some e => { events := t.events, exec := t.exec, thrown := some e }
  | none =>
      let cs := analyzeConsensus t.exec.st env t.exec.ctrs.gen
      { events := t.events ++ [SSEEvent.round_complete roundNum cs.1],
        exec := { t.exec with
                    st := { t.exec.st with consensusScore := cs.1 },
                    ctrs := { t.exec.ctrs with gen := cs.2 } },
        thrown := none }

/-- The early-consensus check applied by `runDiscussion` to each yielded
event: `event.type === round_complete && event.consensusScore &&
event.consensusScore > 0.85 && round >= 3` (a score of `0` is falsy). -/
def isHighConsensus (roundNum : Nat) : SSEEvent → Bool
  | .round_complete _ s =>
      decide (¬ s = 0) && decide ((0.85 : ℚ) < s) && decide (3 ≤ roundNum)
  | _ => false

/-- Whether the early-consensus check fires on some event of a round. -/
def earlyStop (roundNum : Nat) (evs : List SSEEvent) : Bool :=
  evs.any (isHighConsensus roundNum)

/-- The round loop of `runDiscussion` (`for round = 1..totalRounds`),
encoded structurally with the number of remaining iterations as fuel (the
caller passes `totalRounds` at round 1, so fuel `0` is "the loop is done"):
on the early-consensus check the loop emits `discussion_complete` and
returns immediately; after the last round it emits `discussion_complete`.
A thrown exception escapes without one. -/
def runRounds (cfg : DiscussionConfig) (env : Env) :
    Nat → Exec → Nat → StepOut
  | 0, ex, _ =>
      { events := [SSEEvent.discussion_complete ""], exec := ex, thrown := none }
  | fuel + 1, ex, roundNum =>
      let t := runRound cfg env ex roundNum
      match t.thrown with
      | some e => { events := t.events, exec := t.exec, thrown := some e }
      | none =>
          if earlyStop roundNum t.events then
            { events := t.events ++ [SSEEvent.discussion_complete ""],
              exec := t.exec, thrown := none }
          else
            let r := runRounds cfg env fuel t.exec (roundNum + 1)
            { events := t.events ++ r.events, exec := r.exec, thrown := r.thrown }

/-- The complete discussion (`runDiscussion`), starting from a freshly
constructed engine: sets the running flag, runs rounds `1..totalRounds`,
and clears the flag on every exit path (the `finally`). -/
def runDiscussion (llmClient : LLMClient) (cfg : DiscussionConfig)
    (env : Env) : StepOut :=
  let ex0 := mkEngine llmClient
  let ex1 := { ex0 with st := { ex0.st with isRunning := true } }
  let out := runRounds cfg env cfg.totalRounds ex1 1
  { out with
      exec := { out.exec with st := { out.exec.st with isRunning := false } } }

/-- Caller-driven moderator injection (`addModeratorMessage`): appends a
`MODERATOR` message to the log and returns it; no event is emitted (the
function's result carries no events at all). -/
def addModeratorMessage (env : Env) (st : DiscussionState)
    (content : String) (nc : Nat) : Message × DiscussionState × Nat :=
  let message : Message :=
    { id := "msg_mod_" ++ toString (env.now nc),
      content := content,
      role := .MODERATOR,
      round := st.currentRound,
      discussionId := "",
      createdAt := env.now (nc + 1) }
  (message, { st with messages := st.messages ++ [message] }, nc + 2)

/-! ### Event observations -/

/-- Recognize a `discussion_summary` event. -/
def SSEEvent.isSummaryEvent : SSEEvent → Bool
  | .discussion_summary _ => true
  | _ => false

/-- Recognize a `round_complete` event. -/
def SSEEvent.isRoundCompleteEvent : SSEEvent → Bool
  | .round_complete _ _ => true
  | _ => false

/-- Recognize a `discussion_complete` event. -/
def SSEEvent.isCompleteEvent : SSEEvent → Bool
  | .discussion_complete _ => true
  | _ => false

/-- Recognize an `expert_start` event. -/
def SSEEvent.isStartEvent : SSEEvent → Bool
  | .expert_start _ _ _ _ _ => true
  | _ => false

/-- Recognize an `error` event. -/
def SSEEvent.isErrorEvent : SSEEvent → Bool
  | .error _ => true
  | _ => false

/-- Recognize an `expert_complete` event. -/
def SSEEvent.isExpertCompleteEvent : SSEEvent → Bool
  | .expert_complete _ _ _ => true
  | _ => false

/-- The debate styles carried by the `expert_start` events, in order. -/
def expertStartStyles (evs : List SSEEvent) : List DebateStyle :=
  evs.filterMap (fun e =>
    match e with
    | .expert_start _ _ _ _ style => some style
    | _ => none)

/-- The expert ids carried by the `expert_start` events, in order. -/
def expertStartIds (evs : List SSEEvent) : List String :=
  evs.filterMap (fun e =>
    match e with
    | .expert_start i _ _ _ _ => some i
    | _ => none)

/-! ### Style-selection bookkeeping

The used-style set maintained by `getDebateStyle` is a function of the
styles already picked this round: it is emptied exactly when every style
has been used (the reset branch, whose own pick is not recorded), and
otherwise grows by the recorded pick.  These definitions reconstruct that
set from an `expert_start` style sequence. -/

/-- Whether a used-set already contains every debate style, i.e. whether
the next `getDebateStyle` call takes the reset branch. -/
def isFullStyleSet (used : List DebateStyle) : Bool :=
  (DEBATE_STYLES.filter (fun style => decide (style ∉ used))).isEmpty

/-- The used-set after a sequence of picks, starting from `used`. -/
def usedAfterStyles (used : List DebateStyle) : List DebateStyle → List DebateStyle
  | [] => used
  | s :: rest => usedAfterStyles (if isFullStyleSet used then [] else used ++ [s]) rest

/-- The used-set in force when the `k`-th style of a round was selected
(round-start used-set is empty). -/
def usedBeforeStyle (styles : List DebateStyle) (k : Nat) : List DebateStyle :=
  usedAfterStyles [] (styles.take k)

/-- The possible evolutions of the used-set along a pick sequence: a reset
call empties it (recording nothing), any other call appends a style that
was not yet in it.  Every sequence of `getDebateStyle` results satisfies
this relation. -/
inductive StyleTrace : List DebateStyle → List DebateStyle → Prop
  | nil (u : List DebateStyle) : StyleTrace u []
  | reset (u : List DebateStyle) (s : DebateStyle) (rest : List DebateStyle) :
      isFullStyleSet u = true → StyleTrace [] rest → StyleTrace u (s :: rest)
  | fresh (u : List DebateStyle) (s : DebateStyle) (rest : List DebateStyle) :
      isFullStyleSet u = false → s ∉ u → StyleTrace (u ++ [s]) rest →
      StyleTrace u (s :: rest)

/-! ### Concrete fixtures used by witnesses and counterexamples -/

/-- A minimal roster entry. -/
def mkSimpleExpert (i : String) (modelOverride : Option String) : Expert :=
  { id := i, name := "N" ++ i, role := "technical", personality := "p",
    expertise := [], systemPrompt := "s", color := "c",
    aiModel := modelOverride, panelId := "pan" }

/-- A default completion client for the fixtures (model `m0`, explicit
key). -/
def clientA : LLMClient :=
  { model := "m0", provider := .openrouter, maxRetries := 3,
    retryDelay := 2000, apiKey := "k" }

/-- Oracle with identity clock, first-element random picks, a short
successful stream and a high-consensus analysis reply. -/
def envA : Env :=
  { pick := fun _ => 0,
    streamResult := fun _ => .success ["hi"],
    genResponse := fun _ => some "0.9",
    now := fun n => n,
    openrouterApiKey := some "k",
    openaiApiKey := none }

/-- Oracle whose streaming calls always throw (no fragments). -/
def envFail : Env := { envA with streamResult := fun _ => .failure [] "boom" }

/-- Oracle whose streaming calls throw mid-stream, after two fragments have
already been yielded. -/
def envFailTok : Env :=
  { envA with streamResult := fun _ => .failure ["par", "tial"] "boom" }

/-- Oracle with no credential in the environment. -/
def envNoKey : Env := { envA with openrouterApiKey := none }

/-- One-expert, one-round configuration on the default model. -/
def cfgA : DiscussionConfig :=
  { topic := "t", experts := [mkSimpleExpert "e1" none], language := "en",
    moderatorMode := false, totalRounds := 1, model := "m0" }

/-- Two-expert, five-round configuration on the default model (used to
exercise the early-consensus stop in round 3). -/
def cfgB : DiscussionConfig :=
  { topic := "t",
    experts := [mkSimpleExpert "e1" none, mkSimpleExpert "e2" none],
    language := "en", moderatorMode := false, totalRounds := 5, model := "m0" }

/-- Configuration whose only expert overrides the model, forcing a lazy
mid-run client construction. -/
def cfgC : DiscussionConfig :=
  { topic := "t", experts := [mkSimpleExpert "e1" (some "m1")],
    language := "en", moderatorMode := false, totalRounds := 1, model := "m0" }

/-- Eight-expert, one-round configuration (enough turns in one round to
pass a full-set style reset). -/
def cfgD : DiscussionConfig :=
  { topic := "t",
    experts := (List.range 8).map (fun i => mkSimpleExpert ("e" ++ toString i) none),
    language := "en", moderatorMode := false, totalRounds := 1, model := "m0" }

/-- A fresh engine on `clientA`. -/
def exA : Exec := mkEngine clientA

/-- An engine state in which every debate style has been used this round,
as after five recorded picks. -/
def exFull : Exec :=
  { exA with st := { exA.st with usedStylesThisRound := DEBATE_STYLES } }

/-- The first roster entry of the fixtures. -/
def expertE1 : Expert := mkSimpleExpert "e1" none

/-- The engine state with which `runDiscussion` enters its round loop. -/
def startExec (llmClient : LLMClient) : Exec :=
  { mkEngine llmClient with
      st := { (mkEngine llmClient).st with isRunning := true } }

/-- The events emitted by the `cfgB`/`envA` run before its round-3
`round_complete`: rounds 1 and 2 in full, then round 3's turns. -/
def eventsPrefixB : List SSEEvent :=
  [.expert_start "e1" "Ne1" "c" 1 .agreeable,
   .token "hi", .expert_complete "msg_0_e1" "e1" "hi",
   .expert_start "e2" "Ne2" "c" 1 .challenging,
   .token "hi", .expert_complete "msg_2_e2" "e2" "hi",
   .round_complete 1 0,
   .expert_start "e1" "Ne1" "c" 2 .agreeable,
   .token "hi", .expert_complete "msg_4_e1" "e1" "hi",
   .expert_start "e2" "Ne2" "c" 2 .challenging,
   .token "hi", .expert_complete "msg_6_e2" "e2" "hi",
   .round_complete 2 0,
   .expert_start "e1" "Ne1" "c" 3 .agreeable,
   .token "hi", .expert_complete "msg_8_e1" "e1" "hi",
   .expert_start "e2" "Ne2" "c" 3 .challenging,
   .token "hi", .expert_complete "msg_10_e2" "e2" "hi"]

/-- The style selected by a turn from the current engine state. -/
def turnStyle (env : Env) (ex : Exec) : DebateStyle :=
  (getDebateStyle env ex.ctrs.pick ex.st.usedStylesThisRound).1

/-- The expert order a round uses: roster order on a final round with
`totalRounds >= 4`, a fresh shuffle otherwise. -/
def roundOrder (cfg : DiscussionConfig) (env : Env) (ex : Exec) (r : Nat) :
    List Expert :=
  if cfg.totalRounds ≤ r ∧ 4 ≤ cfg.totalRounds then cfg.experts
  else (shuffleArray env cfg.experts ex.ctrs.pick).1

/-- The engine state with which a round starts its turn loop: round number
set, used-style set cleared, and the pick counter advanced when a shuffle
was drawn. -/
def roundStartExec (cfg : DiscussionConfig) (env : Env) (ex : Exec) (r : Nat) :
    Exec :=
  { ex with
      st := { ex.st with currentRound := r, usedStylesThisRound := [] },
      ctrs := { ex.ctrs with pick :=
        if cfg.totalRounds ≤ r ∧ 4 ≤ cfg.totalRounds then ex.ctrs.pick
        else (shuffleArray env cfg.experts ex.ctrs.pick).2 } }

/-- The outcome of a round's turn loop. -/
def roundTurnsOut (cfg : DiscussionConfig) (env : Env) (ex : Exec) (r : Nat) :
    StepOut :=
  runTurns cfg env (roundStartExec cfg env ex r) r (roundOrder cfg env ex r)

/-- The consensus score a round reports. -/
def roundScore (cfg : DiscussionConfig) (env : Env) (ex : Exec) (r : Nat) : ℚ :=
  (analyzeConsensus (roundTurnsOut cfg env ex r).exec.st env
    (roundTurnsOut cfg env ex r).exec.ctrs.gen).1

/-! ### General list lemmas -/

theorem expertStartIds_append (l₁ l₂ : List SSEEvent) :
    expertStartIds (l₁ ++ l₂) = expertStartIds l₁ ++ expertStartIds l₂ := by
  simp [expertStartIds]

theorem expertStartStyles_append (l₁ l₂ : List SSEEvent) :
    expertStartStyles (l₁ ++ l₂) =
      expertStartStyles l₁ ++ expertStartStyles l₂ := by
  simp [expertStartStyles]

theorem countP_pos_of_split {α : Type} {p : α → Bool} {l₁ l₂ : List α} {x : α}
    (hx : p x = true) : 0 < (l₁ ++ x :: l₂).countP p := by
  simp [List.countP_append, List.countP_cons, hx]

theorem split_first {α : Type} {p : α → Bool} {pre post l₁ l₂ : List α} {x y : α}
    (h : pre ++ x :: post = l₁ ++ y :: l₂)
    (hpre : pre.countP p = 0) (hx : p x = true) (hy : p y = true) :
    (l₁ = pre ∧ y = x ∧ l₂ = post) ∨
      (∃ mid, l₁ = pre ++ x :: mid ∧ post = mid ++ y :: l₂) := by
  induction l₁ generalizing pre with
  | nil =>
      cases pre with
      | nil =>
          simp only [List.nil_append, List.cons.injEq] at h
          exact Or.inl ⟨rfl, h.1.symm, h.2.symm⟩
      | cons a pre' =>
          simp only [List.cons_append, List.nil_append, List.cons.injEq] at h
          rw [List.countP_cons, h.1, hy] at hpre
          simp at hpre
  | cons b l₁' ih =>
      cases pre with
      | nil =>
          simp only [List.nil_append, List.cons_append, List.cons.injEq] at h
          exact Or.inr ⟨l₁', by simp [h.1], h.2⟩
      | cons a pre' =>
          simp only [List.cons_append, List.cons.injEq] at h
          rw [List.countP_cons] at hpre
          have hpre' : pre'.countP p = 0 := by omega
          rcases ih h.2 hpre' with ⟨h1, h2, h3⟩ | ⟨mid, hm1, hm2⟩
          · exact Or.inl ⟨by rw [h1, h.1], h2, h3⟩
          · exact Or.inr ⟨mid, by simp [hm1, h.1], hm2⟩

/-! ### Event-shape lemmas for a single turn -/

theorem runExpertTurn_events_false (cfg : DiscussionConfig) (env : Env)
    (ex : Exec) (e : Expert) (r : Nat) {p : SSEEvent → Bool}
    (hstart : ∀ a b c d s, p (.expert_start a b c d s) = false)
    (htok : ∀ s, p (.token s) = false)
    (hdone : ∀ a b c, p (.expert_complete a b c) = false)
    (herr : ∀ m, p (.error m) = false) :
    ∀ ev ∈ (runExpertTurn cfg env ex e r).events, p ev = false := by
  intro ev hev
  unfold runExpertTurn at hev
  cases hc : getLLMClientForExpert cfg env ex.cache e with
  | error err =>
      simp only [hc] at hev
      simp at hev
      rw [hev]; exact hstart _ _ _ _ _
  | ok pr =>
      obtain ⟨c, cache1⟩ := pr
      simp only [hc] at hev
      cases hs : env.streamResult ex.ctrs.stream with
      | success toks =>
          simp only [hs] at hev
          simp at hev
          rcases hev with hev | ⟨s, hs', rfl⟩ | hev
          · rw [hev]; exact hstart _ _ _ _ _
          · exact htok s
          · rw [hev]; exact hdone _ _ _
      | failure toks msg =>
          simp only [hs] at hev
          simp at hev
          rcases hev with hev | ⟨s, hs', rfl⟩ | hev
          · rw [hev]; exact hstart _ _ _ _ _
          · exact htok s
          · rw [hev]; exact herr _

theorem runExpertTurn_countP (cfg : DiscussionConfig) (env : Env)
    (ex : Exec) (e : Expert) (r : Nat) {p : SSEEvent → Bool}
    (hstart : ∀ a b c d s, p (.expert_start a b c d s) = false)
    (htok : ∀ s, p (.token s) = false)
    (hdone : ∀ a b c, p (.expert_complete a b c) = false)
    (herr : ∀ m, p (.error m) = false) :
    (runExpertTurn cfg env ex e r).events.countP p = 0 :=
  List.countP_eq_zero.mpr (fun ev hev => by
    simpa using runExpertTurn_events_false cfg env ex e r hstart htok hdone herr ev hev)

theorem randomChoice_mem (env : Env) (pc : Nat) {α : Type} (l : List α)
    (d : α) (hl : l ≠ []) : randomChoice env pc l d ∈ l := by
  have hlen : 0 < l.length := List.length_pos.mpr hl
  have hlt : env.pick pc % l.length < l.length := Nat.mod_lt _ hlen
  rw [randomChoice, List.getD_eq_getElem l d hlt]
  exact List.getElem_mem hlt

theorem getDebateStyle_step (env : Env) (pc : Nat) (used : List DebateStyle) :
    (isFullStyleSet used = true ∧ (getDebateStyle env pc used).2.1 = []) ∨
    (isFullStyleSet used = false ∧ (getDebateStyle env pc used).1 ∉ used ∧
      (getDebateStyle env pc used).2.1 = used ++ [(getDebateStyle env pc used).1]) := by
  by_cases hfull : isFullStyleSet used = true
  · left
    refine ⟨hfull, ?_⟩
    rw [isFullStyleSet] at hfull
    simp only [getDebateStyle]
    rw [hfull]
    simp
  · have hfull' : isFullStyleSet used = false := by
      cases h : isFullStyleSet used
      · rfl
      · exact absurd h hfull
    right
    have hne : DEBATE_STYLES.filter (fun style => decide (style ∉ used)) ≠ [] := by
      intro hnil
      rw [isFullStyleSet, hnil] at hfull'
      simp at hfull'
    have hfe : (DEBATE_STYLES.filter (fun style => decide (style ∉ used))).isEmpty
        = false := by rw [← isFullStyleSet]; exact hfull'
    refine ⟨hfull', ?_, ?_⟩
    · simp only [getDebateStyle]
      rw [hfe]
      by_cases hch : DebateStyle.challenging ∉ used ∧ 2 ≤ used.length
      · rw [if_neg (by simp), if_pos hch]
        exact hch.1
      · rw [if_neg (by simp), if_neg hch]
        have hmem := randomChoice_mem env pc
          (DEBATE_STYLES.filter (fun style => decide (style ∉ used)))
          DebateStyle.agreeable hne
        have hprop := List.of_mem_filter hmem
        simpa using hprop
    · simp only [getDebateStyle]
      rw [hfe]
      by_cases hch : DebateStyle.challenging ∉ used ∧ 2 ≤ used.length
      · rw [if_neg (by simp), if_pos hch]
      · rw [if_neg (by simp), if_neg hch]

theorem runExpertTurn_thrown_shape (cfg : DiscussionConfig) (env : Env)
    (ex : Exec) (e : Expert) (r : Nat) {err : String}
    (hc : getLLMClientForExpert cfg env ex.cache e = .error err) :
    (runExpertTurn cfg env ex e r).thrown = some err
    ∧ (runExpertTurn cfg env ex e r).events =
        [SSEEvent.expert_start e.id e.name e.color r (turnStyle env ex)]
    ∧ (runExpertTurn cfg env ex e r).exec.st.usedStylesThisRound =
        (getDebateStyle env ex.ctrs.pick ex.st.usedStylesThisRound).2.1
    ∧ (runExpertTurn cfg env ex e r).exec.cache = ex.cache := by
  refine ⟨?_, ?_, ?_, ?_⟩ <;>
    simp only [runExpertTurn, hc, turnStyle]

theorem runExpertTurn_failure_shape (cfg : DiscussionConfig) (env : Env)
    (ex : Exec) (e : Expert) (r : Nat) {c : LLMClient}
    {cache1 : List (String × LLMClient)} {toks : List String} {errMsg : String}
    (hc : getLLMClientForExpert cfg env ex.cache e = .ok (c, cache1))
    (hs : env.streamResult ex.ctrs.stream = .failure toks errMsg) :
    (runExpertTurn cfg env ex e r).thrown = none
    ∧ (runExpertTurn cfg env ex e r).events =
        [SSEEvent.expert_start e.id e.name e.color r (turnStyle env ex)] ++
        toks.map SSEEvent.token ++
        [SSEEvent.error ("Error getting response from " ++ e.name ++ ": " ++ errMsg)]
    ∧ (runExpertTurn cfg env ex e r).exec.st.messages = ex.st.messages
    ∧ (runExpertTurn cfg env ex e r).exec.st.expertPositions = ex.st.expertPositions
    ∧ (runExpertTurn cfg env ex e r).exec.st.usedStylesThisRound =
        (getDebateStyle env ex.ctrs.pick ex.st.usedStylesThisRound).2.1
    ∧ (runExpertTurn cfg env ex e r).exec.ctrs.stream = ex.ctrs.stream + 1
    ∧ (runExpertTurn cfg env ex e r).exec.cache = cache1 := by
  refine ⟨?_, ?_, ?_, ?_, ?_, ?_, ?_⟩ <;>
    simp only [runExpertTurn, hc, hs, turnStyle]

theorem runExpertTurn_success_shape (cfg : DiscussionConfig) (env : Env)
    (ex : Exec) (e : Expert) (r : Nat) {c : LLMClient}
    {cache1 : List (String × LLMClient)} {toks : List String}
    (hc : getLLMClientForExpert cfg env ex.cache e = .ok (c, cache1))
    (hs : env.streamResult ex.ctrs.stream = .success toks) :
    (runExpertTurn cfg env ex e r).thrown = none
    ∧ (∃ message : Message,
        message.content = String.join toks ∧
        (runExpertTurn cfg env ex e r).exec.st.messages =
          ex.st.messages ++ [message] ∧
        (runExpertTurn cfg env ex e r).events =
          [SSEEvent.expert_start e.id e.name e.color r (turnStyle env ex)] ++
          toks.map SSEEvent.token ++
          [SSEEvent.expert_complete message.id e.id (String.join toks)])
    ∧ (runExpertTurn cfg env ex e r).exec.st.usedStylesThisRound =
        (getDebateStyle env ex.ctrs.pick ex.st.usedStylesThisRound).2.1
    ∧ (runExpertTurn cfg env ex e r).exec.ctrs.stream = ex.ctrs.stream + 1
    ∧ (runExpertTurn cfg env ex e r).exec.cache = cache1 := by
  simp only [runExpertTurn, hc, hs, turnStyle]
  refine ⟨by trivial, ⟨_, rfl, rfl, rfl⟩, by trivial, by trivial, by trivial⟩

theorem runExpertTurn_startStyles (cfg : DiscussionConfig) (env : Env)
    (ex : Exec) (e : Expert) (r : Nat) :
    expertStartStyles (runExpertTurn cfg env ex e r).events = [turnStyle env ex] := by
  unfold runExpertTurn turnStyle
  cases hc : getLLMClientForExpert cfg env ex.cache e with
  | error err => simp [expertStartStyles]
  | ok pr =>
      obtain ⟨c, cache1⟩ := pr
      cases hs : env.streamResult ex.ctrs.stream with
      | success toks =>
          simp [expertStartStyles, List.filterMap_append, List.filterMap_map,
            Function.comp_def]
      | failure toks msg =>
          simp [expertStartStyles, List.filterMap_append, List.filterMap_map,
            Function.comp_def]

theorem runExpertTurn_startIds (cfg : DiscussionConfig) (env : Env)
    (ex : Exec) (e : Expert) (r : Nat) :
    expertStartIds (runExpertTurn cfg env ex e r).events = [e.id] := by
  unfold runExpertTurn
  cases hc : getLLMClientForExpert cfg env ex.cache e with
  | error err => simp [expertStartIds]
  | ok pr =>
      obtain ⟨c, cache1⟩ := pr
      cases hs : env.streamResult ex.ctrs.stream with
      | success toks =>
          simp [expertStartIds, List.filterMap_append, List.filterMap_map,
            Function.comp_def]
      | failure toks msg =>
          simp [expertStartIds, List.filterMap_append, List.filterMap_map,
            Function.comp_def]

theorem runExpertTurn_used (cfg : DiscussionConfig) (env : Env)
    (ex : Exec) (e : Expert) (r : Nat) :
    (runExpertTurn cfg env ex e r).exec.st.usedStylesThisRound =
      (getDebateStyle env ex.ctrs.pick ex.st.usedStylesThisRound).2.1 := by
  unfold runExpertTurn
  cases hc : getLLMClientForExpert cfg env ex.cache e with
  | error err => simp
  | ok pr =>
      obtain ⟨c, cache1⟩ := pr
      cases hs : env.streamResult ex.ctrs.stream with
      | success toks => simp
      | failure toks msg => simp

/-! ### The per-round turn loop -/

theorem runTurns_countP (cfg : DiscussionConfig) (env : Env) (r : Nat)
    (experts : List Expert) (ex : Exec) {p : SSEEvent → Bool}
    (hstart : ∀ a b c d s, p (.expert_start a b c d s) = false)
    (htok : ∀ s, p (.token s) = false)
    (hdone : ∀ a b c, p (.expert_complete a b c) = false)
    (herr : ∀ m, p (.error m) = false)
    (hmod : ∀ m, p (.moderator_prompt m) = false) :
    (runTurns cfg env ex r experts).events.countP p = 0 := by
  induction experts generalizing ex with
  | nil => simp [runTurns]
  | cons e rest ih =>
      have hturn := runExpertTurn_countP cfg env ex e r hstart htok hdone herr
      simp only [runTurns]
      cases ht : (runExpertTurn cfg env ex e r).thrown with
      | some err => simpa using hturn
      | none =>
          by_cases hm : cfg.moderatorMode = true <;>
            simp [hm, List.countP_append, List.countP_cons, hturn, hmod,
              ih (runExpertTurn cfg env ex e r).exec]

theorem runTurns_startIds (cfg : DiscussionConfig) (env : Env) (r : Nat)
    (experts : List Expert) (ex : Exec)
    (h : (runTurns cfg env ex r experts).thrown = none) :
    expertStartIds (runTurns cfg env ex r experts).events =
      experts.map Expert.id := by
  induction experts generalizing ex with
  | nil => simp [runTurns, expertStartIds]
  | cons e rest ih =>
      simp only [runTurns] at h ⊢
      cases ht : (runExpertTurn cfg env ex e r).thrown with
      | some err => rw [ht] at h; simp at h
      | none =>
          rw [ht] at h
          simp only at h ⊢
          have hrest := ih (runExpertTurn cfg env ex e r).exec (by simpa using h)
          by_cases hm : cfg.moderatorMode = true <;>
            simp [hm, expertStartIds, List.filterMap_append] at hrest ⊢ <;>
            rw [← expertStartIds, runExpertTurn_startIds] <;>
            simpa [expertStartIds] using hrest

theorem runTurns_styleTrace (cfg : DiscussionConfig) (env : Env) (r : Nat)
    (experts : List Expert) (ex : Exec) :
    StyleTrace ex.st.usedStylesThisRound
      (expertStartStyles (runTurns cfg env ex r experts).events) := by
  induction experts generalizing ex with
  | nil =>
      simp only [runTurns]
      simpa [expertStartStyles] using StyleTrace.nil _
  | cons e rest ih =>
      have hstep := getDebateStyle_step env ex.ctrs.pick ex.st.usedStylesThisRound
      have hstyles := runExpertTurn_startStyles cfg env ex e r
      have hused := runExpertTurn_used cfg env ex e r
      simp only [runTurns]
      cases ht : (runExpertTurn cfg env ex e r).thrown with
      | some err =>
          simp only [hstyles]
          rcases hstep with ⟨hfull, -⟩ | ⟨hfull, hmem, -⟩
          · exact StyleTrace.reset _ _ _ hfull (StyleTrace.nil _)
          · exact StyleTrace.fresh _ _ _ hfull hmem (StyleTrace.nil _)
      | none =>
          have htrace := ih (runExpertTurn cfg env ex e r).exec
          rw [hused] at htrace
          have hsplitstyles :
              expertStartStyles
                ((if cfg.moderatorMode = true then
                    (runExpertTurn cfg env ex e r).events ++
                      [SSEEvent.moderator_prompt (e.name ++
                        " has finished. You can add a comment or question, or skip to continue.")]
                  else (runExpertTurn cfg env ex e r).events) ++
                  (runTurns cfg env (runExpertTurn cfg env ex e r).exec r rest).events) =
              turnStyle env ex ::
                expertStartStyles
                  (runTurns cfg env (runExpertTurn cfg env ex e r).exec r rest).events := by
            by_cases hm : cfg.moderatorMode = true <;>
              simp [hm, expertStartStyles, List.filterMap_append] <;>
              rw [← expertStartStyles, hstyles] <;> simp [expertStartStyles]
          simp only [hsplitstyles]
          rcases hstep with ⟨hfull, hu⟩ | ⟨hfull, hmem, hu⟩
          · exact StyleTrace.reset _ _ _ hfull (by rwa [hu] at htrace)
          · exact StyleTrace.fresh _ _ _ hfull (by simpa [turnStyle] using hmem)
              (by rw [hu] at htrace; simpa [turnStyle] using htrace)

/-! ### Pure facts about style-pick sequences -/

theorem usedAfterStyles_take_succ (u : List DebateStyle) (s : DebateStyle)
    (rest : List DebateStyle) (m : Nat) :
    usedAfterStyles u ((s :: rest).take (m + 1)) =
      usedAfterStyles (if isFullStyleSet u then [] else u ++ [s]) (rest.take m) := by
  simp [List.take_succ_cons, usedAfterStyles]

theorem styleTrace_mem_reset {u styles : List DebateStyle}
    (h : StyleTrace u styles) :
    ∀ (j : Nat) (s : DebateStyle), styles.get? j = some s → s ∈ u →
    ∃ m, m ≤ j ∧ isFullStyleSet (usedAfterStyles u (styles.take m)) = true := by
  induction h with
  | nil u => intro j s hj hs; simp at hj
  | reset u s0 rest hfull htrace ih =>
      intro j s hj hs
      exact ⟨0, Nat.zero_le _, by simpa [usedAfterStyles] using hfull⟩
  | fresh u s0 rest hfull hmem htrace ih =>
      intro j s hj hs
      cases j with
      | zero =>
          simp at hj
          exact absurd (hj ▸ hs) hmem
      | succ j' =>
          have hj' : rest.get? j' = some s := by simpa using hj
          obtain ⟨m, hm, hfullm⟩ := ih j' s hj' (List.mem_append.mpr (Or.inl hs))
          refine ⟨m + 1, by omega, ?_⟩
          rw [usedAfterStyles_take_succ, if_neg (by simp [hfull])]
          exact hfullm

theorem styleTrace_dup_reset {u styles : List DebateStyle}
    (h : StyleTrace u styles) :
    ∀ (i j : Nat) (s : DebateStyle), i < j → styles.get? i = some s →
    styles.get? j = some s →
    ∃ m, i ≤ m ∧ m ≤ j ∧
      isFullStyleSet (usedAfterStyles u (styles.take m)) = true := by
  induction h with
  | nil u => intro i j s hij hi hj; simp at hi
  | reset u s0 rest hfull htrace ih =>
      intro i j s hij hi hj
      cases i with
      | zero =>
          exact ⟨0, Nat.le_refl 0, Nat.zero_le _,
            by simpa [usedAfterStyles] using hfull⟩
      | succ i' =>
          cases j with
          | zero => omega
          | succ j' =>
              have hi' : rest.get? i' = some s := by simpa using hi
              have hj' : rest.get? j' = some s := by simpa using hj
              obtain ⟨m, hm1, hm2, hfullm⟩ := ih i' j' s (by omega) hi' hj'
              refine ⟨m + 1, by omega, by omega, ?_⟩
              rw [usedAfterStyles_take_succ, if_pos hfull]
              exact hfullm
  | fresh u s0 rest hfull hmem htrace ih =>
      intro i j s hij hi hj
      cases i with
      | zero =>
          cases j with
          | zero => omega
          | succ j' =>
              have hi0 : s0 = s := by simpa using hi
              have hj' : rest.get? j' = some s := by simpa using hj
              obtain ⟨m, hm, hfullm⟩ := styleTrace_mem_reset htrace j' s hj'
                (by rw [← hi0]; exact List.mem_append.mpr (Or.inr (by simp)))
              refine ⟨m + 1, by omega, by omega, ?_⟩
              rw [usedAfterStyles_take_succ, if_neg (by simp [hfull])]
              exact hfullm
      | succ i' =>
          cases j with
          | zero => omega
          | succ j' =>
              have hi' : rest.get? i' = some s := by simpa using hi
              have hj' : rest.get? j' = some s := by simpa using hj
              obtain ⟨m, hm1, hm2, hfullm⟩ := ih i' j' s (by omega) hi' hj'
              refine ⟨m + 1, by omega, by omega, ?_⟩
              rw [usedAfterStyles_take_succ, if_neg (by simp [hfull])]
              exact hfullm

/-! ### Round-level lemmas -/

theorem runRound_thrown_eq (cfg : DiscussionConfig) (env : Env) (ex : Exec)
    (r : Nat) :
    (runRound cfg env ex r).thrown = (roundTurnsOut cfg env ex r).thrown := by
  by_cases hc : cfg.totalRounds ≤ r ∧ 4 ≤ cfg.totalRounds <;>
    · simp only [runRound, roundTurnsOut, roundStartExec, roundOrder, hc,
        if_true, if_false]
      split <;> rename_i heq <;> simp_all

theorem runRound_events_eq (cfg : DiscussionConfig) (env : Env) (ex : Exec)
    (r : Nat) :
    (runRound cfg env ex r).events =
      (roundTurnsOut cfg env ex r).events ++
        (match (roundTurnsOut cfg env ex r).thrown with
          | some _ => []
          | none => [SSEEvent.round_complete r (roundScore cfg env ex r)]) := by
  by_cases hc : cfg.totalRounds ≤ r ∧ 4 ≤ cfg.totalRounds <;>
    · simp only [runRound, roundTurnsOut, roundScore, roundStartExec,
        roundOrder, hc, if_true, if_false]
      split <;> rename_i heq <;> simp_all [roundTurnsOut, roundStartExec,
        roundOrder, hc]

theorem runRound_cache_eq (cfg : DiscussionConfig) (env : Env) (ex : Exec)
    (r : Nat) :
    (runRound cfg env ex r).exec.cache = (roundTurnsOut cfg env ex r).exec.cache := by
  by_cases hc : cfg.totalRounds ≤ r ∧ 4 ≤ cfg.totalRounds <;>
    · simp only [runRound, roundTurnsOut, roundStartExec, roundOrder, hc,
        if_true, if_false]
      split <;> rename_i heq <;> simp_all

theorem runRound_countP (cfg : DiscussionConfig) (env : Env) (ex : Exec)
    (r : Nat) {p : SSEEvent → Bool}
    (hstart : ∀ a b c d s, p (.expert_start a b c d s) = false)
    (htok : ∀ s, p (.token s) = false)
    (hdone : ∀ a b c, p (.expert_complete a b c) = false)
    (herr : ∀ m, p (.error m) = false)
    (hmod : ∀ m, p (.moderator_prompt m) = false)
    (hrc : ∀ n q, p (.round_complete n q) = false) :
    (runRound cfg env ex r).events.countP p = 0 := by
  rw [runRound_events_eq]
  have ht := runTurns_countP cfg env r (roundOrder cfg env ex r)
    (roundStartExec cfg env ex r) hstart htok hdone herr hmod
  rw [List.countP_append]
  cases hth : (roundTurnsOut cfg env ex r).thrown <;>
    simp [roundTurnsOut, ht, List.countP_cons, hrc]

theorem runRound_none_shape (cfg : DiscussionConfig) (env : Env) (ex : Exec)
    (r : Nat) (h : (runRound cfg env ex r).thrown = none) :
    (runRound cfg env ex r).events =
        (roundTurnsOut cfg env ex r).events ++
          [SSEEvent.round_complete r (roundScore cfg env ex r)]
      ∧ (roundTurnsOut cfg env ex r).events.countP
          SSEEvent.isRoundCompleteEvent = 0
      ∧ (roundTurnsOut cfg env ex r).events.countP
          SSEEvent.isCompleteEvent = 0 := by
  rw [runRound_thrown_eq] at h
  refine ⟨?_, ?_, ?_⟩
  · rw [runRound_events_eq, h]
  · exact runTurns_countP cfg env r _ _ (fun _ _ _ _ _ => rfl) (fun _ => rfl)
      (fun _ _ _ => rfl) (fun _ => rfl) (fun _ => rfl)
  · exact runTurns_countP cfg env r _ _ (fun _ _ _ _ _ => rfl) (fun _ => rfl)
      (fun _ _ _ => rfl) (fun _ => rfl) (fun _ => rfl)

theorem runRound_some_countP (cfg : DiscussionConfig) (env : Env) (ex : Exec)
    (r : Nat) (e : String) (h : (runRound cfg env ex r).thrown = some e) :
    (runRound cfg env ex r).events.countP SSEEvent.isRoundCompleteEvent = 0 := by
  rw [runRound_thrown_eq] at h
  rw [runRound_events_eq, h]
  simpa using runTurns_countP cfg env r _ _ (fun _ _ _ _ _ => rfl) (fun _ => rfl)
    (fun _ _ _ => rfl) (fun _ => rfl) (fun _ => rfl)

theorem runRound_startIds (cfg : DiscussionConfig) (env : Env) (ex : Exec)
    (r : Nat) (h : (runRound cfg env ex r).thrown = none) :
    expertStartIds (runRound cfg env ex r).events =
      (roundOrder cfg env ex r).map Expert.id := by
  rw [runRound_thrown_eq] at h
  rw [runRound_events_eq, h]
  rw [expertStartIds]
  simp only [List.filterMap_append]
  rw [← expertStartIds, ← expertStartIds]
  have hids := runTurns_startIds cfg env r (roundOrder cfg env ex r)
    (roundStartExec cfg env ex r) (by simpa [roundTurnsOut] using h)
  rw [show (roundTurnsOut cfg env ex r).events =
      (runTurns cfg env (roundStartExec cfg env ex r) r
        (roundOrder cfg env ex r)).events from rfl]
  rw [hids]
  simp [expertStartIds]

theorem runRound_styleTrace (cfg : DiscussionConfig) (env : Env) (ex : Exec)
    (r : Nat) :
    StyleTrace [] (expertStartStyles (runRound cfg env ex r).events) := by
  rw [runRound_events_eq]
  have htr := runTurns_styleTrace cfg env r (roundOrder cfg env ex r)
    (roundStartExec cfg env ex r)
  rw [expertStartStyles]
  simp only [List.filterMap_append]
  rw [← expertStartStyles, ← expertStartStyles]
  have hc : (expertStartStyles
      (match (roundTurnsOut cfg env ex r).thrown with
        | some _ => ([] : List SSEEvent)
        | none => [SSEEvent.round_complete r (roundScore cfg env ex r)])) = [] := by
    cases (roundTurnsOut cfg env ex r).thrown <;> simp [expertStartStyles]
  rw [hc, List.append_nil]
  simpa [roundTurnsOut, roundStartExec] using htr



/-! ### Round-loop lemmas -/

theorem runRounds_no_summary (cfg : DiscussionConfig) (env : Env)
    (fuel : Nat) (ex : Exec) (roundNum : Nat) :
    (runRounds cfg env fuel ex roundNum).events.countP
      SSEEvent.isSummaryEvent = 0 := by
  have hrc : ∀ ex' r', (runRound cfg env ex' r').events.countP
      SSEEvent.isSummaryEvent = 0 := fun ex' r' =>
    runRound_countP cfg env ex' r' (fun _ _ _ _ _ => rfl) (fun _ => rfl)
      (fun _ _ _ => rfl) (fun _ => rfl) (fun _ => rfl) (fun _ _ => rfl)
  induction fuel generalizing ex roundNum with
  | zero => rfl
  | succ fuel ih =>
      rw [runRounds]
      cases ht : (runRound cfg env ex roundNum).thrown with
      | some e =>
          simp only [ht]
          exact hrc ex roundNum
      | none =>
          simp only [ht]
          by_cases he : earlyStop roundNum (runRound cfg env ex roundNum).events = true
          · rw [if_pos he, List.countP_append, hrc ex roundNum]
            rfl
          · rw [if_neg he]
            simp only
            rw [List.countP_append, hrc ex roundNum, ih]

theorem runRounds_none_last (cfg : DiscussionConfig) (env : Env)
    (fuel : Nat) (ex : Exec) (roundNum : Nat) :
    (runRounds cfg env fuel ex roundNum).thrown = none →
    ∃ pre, (runRounds cfg env fuel ex roundNum).events =
        pre ++ [SSEEvent.discussion_complete ""]
      ∧ (runRounds cfg env fuel ex roundNum).events.countP
          SSEEvent.isCompleteEvent = 1 := by
  have hrc : ∀ ex' r', (runRound cfg env ex' r').events.countP
      SSEEvent.isCompleteEvent = 0 := fun ex' r' =>
    runRound_countP cfg env ex' r' (fun _ _ _ _ _ => rfl) (fun _ => rfl)
      (fun _ _ _ => rfl) (fun _ => rfl) (fun _ => rfl) (fun _ _ => rfl)
  induction fuel generalizing ex roundNum with
  | zero =>
      intro h
      exact ⟨[], by simp [runRounds], by rfl⟩
  | succ fuel ih =>
      intro h
      rw [runRounds] at h ⊢
      cases ht : (runRound cfg env ex roundNum).thrown with
      | some e => simp only [ht] at h; simp at h
      | none =>
          simp only [ht] at h ⊢
          by_cases he : earlyStop roundNum (runRound cfg env ex roundNum).events = true
          · rw [if_pos he]
            refine ⟨(runRound cfg env ex roundNum).events, rfl, ?_⟩
            rw [List.countP_append, hrc ex roundNum]
            rfl
          · rw [if_neg he] at h ⊢
            simp only at h ⊢
            obtain ⟨pre, hpre, hcount⟩ := ih _ _ (by simpa using h)
            refine ⟨(runRound cfg env ex roundNum).events ++ pre, ?_, ?_⟩
            · rw [List.append_assoc, ← hpre]
            · rw [List.countP_append, hrc ex roundNum, hcount]

theorem runRounds_early_split (cfg : DiscussionConfig) (env : Env)
    (fuel : Nat) (ex : Exec) (roundNum : Nat) :
    ∀ (l₁ l₂ : List SSEEvent) (r : Nat) (s : ℚ),
      (runRounds cfg env fuel ex roundNum).events =
          l₁ ++ SSEEvent.round_complete r s :: l₂ →
      3 ≤ r → (0.85 : ℚ) < s →
      l₂ = [SSEEvent.discussion_complete ""] := by
  induction fuel generalizing ex roundNum with
  | zero =>
      intro l₁ l₂ r s h hr hs
      rw [runRounds] at h
      cases l₁ <;> simp_all
  | succ fuel ih =>
      intro l₁ l₂ r s h hr hs
      rw [runRounds] at h
      cases ht : (runRound cfg env ex roundNum).thrown with
      | some es =>
          simp only [ht] at h
          have hpos := @countP_pos_of_split SSEEvent
            SSEEvent.isRoundCompleteEvent l₁ l₂
            (SSEEvent.round_complete r s) rfl
          rw [← h, runRound_some_countP cfg env ex roundNum es ht] at hpos
          omega
      | none =>
          simp only [ht] at h
          obtain ⟨hev, hpre, -⟩ := runRound_none_shape cfg env ex roundNum ht
          by_cases he : earlyStop roundNum (runRound cfg env ex roundNum).events = true
          · rw [if_pos he] at h
            rw [hev, List.append_assoc] at h
            simp only [List.singleton_append] at h
            rcases split_first h hpre rfl rfl with ⟨-, -, hpost⟩ | ⟨mid, -, hpost⟩
            · exact hpost
            · cases mid <;> simp_all
          · rw [if_neg he] at h
            simp only at h
            rw [hev, List.append_assoc] at h
            simp only [List.singleton_append] at h
            rcases split_first h hpre rfl rfl with ⟨-, hx, hpost⟩ | ⟨mid, -, hpost⟩
            · exfalso
              apply he
              have hinj := SSEEvent.round_complete.inj hx
              rw [earlyStop, List.any_eq_true]
              refine ⟨SSEEvent.round_complete roundNum
                (roundScore cfg env ex roundNum), ?_, ?_⟩
              · rw [hev]
                exact List.mem_append.mpr (Or.inr (by simp))
              · have hs' : (0.85 : ℚ) < roundScore cfg env ex roundNum := by
                  rw [← hinj.2]; exact hs
                have hr' : 3 ≤ roundNum := by rw [hinj.1] at hr; exact hr
                have hne : ¬ roundScore cfg env ex roundNum = 0 := by
                  intro h0; rw [h0] at hs'; norm_num at hs'
                simp [isHighConsensus, hs', hr', hne]
            · exact ih _ _ mid l₂ r s hpost hr hs

/-! ### The shuffle returns a permutation -/

theorem extractIdx_perm {α : Type} :
    ∀ (l : List α) (i : Nat) (a : α) (rest : List α),
    extractIdx l i = some (a, rest) → (a :: rest).Perm l := by
  intro l
  induction l with
  | nil => intro i a rest h; simp [extractIdx] at h
  | cons x xs ih =>
      intro i a rest h
      cases i with
      | zero =>
          simp only [extractIdx, Option.some.injEq, Prod.mk.injEq] at h
          rw [← h.1, ← h.2]
      | succ n =>
          simp only [extractIdx, Option.map_eq_some'] at h
          obtain ⟨⟨b, rest'⟩, hb, heq⟩ := h
          simp only [Prod.mk.injEq] at heq
          rw [← heq.1, ← heq.2]
          exact (List.Perm.swap x b rest').trans (List.Perm.cons x (ih n b rest' hb))

theorem shuffleGo_perm {α : Type} (env : Env) :
    ∀ (fuel : Nat) (l : List α) (pc : Nat), (shuffleGo env fuel l pc).1.Perm l := by
  intro fuel
  induction fuel with
  | zero => intro l pc; exact List.Perm.refl _
  | succ fuel ih =>
      intro l pc
      cases l with
      | nil => exact List.Perm.refl _
      | cons x xs =>
          rw [shuffleGo]
          cases he : extractIdx (x :: xs) (env.pick pc % (x :: xs).length) with
          | some p =>
              obtain ⟨a, rest⟩ := p
              exact (List.Perm.cons a (ih rest (pc + 1))).trans
                (extractIdx_perm (x :: xs) _ a rest he)
          | none => exact List.Perm.refl _

theorem shuffleArray_perm {α : Type} (env : Env) (l : List α) (pc : Nat) :
    (shuffleArray env l pc).1.Perm l :=
  shuffleGo_perm env l.length l pc

/-! ### Client-cache lemmas -/

theorem find?_isSome_map_replace {α : Type} (k k' : String) (v : α)
    (m : List (String × α)) :
    (List.find? (fun p => p.1 == k)
        (m.map (fun p => if p.1 == k' then (k', v) else p))).isSome =
      (List.find? (fun p => p.1 == k) m).isSome := by
  induction m with
  | nil => rfl
  | cons p m' ih =>
      simp only [List.map_cons, List.find?_cons]
      have hkey : ((if p.1 == k' then (k', v) else p).1 == k) = (p.1 == k) := by
        by_cases hp : (p.1 == k') = true
        · have hpk : p.1 = k' := by simpa using hp
          simp [hp, hpk]
        · simp [hp]
      rw [hkey]
      cases hpk : (p.1 == k) with
      | true => simp
      | false => simpa using ih

theorem mapGet_mapSet_isSome {α : Type} (m : List (String × α)) (k k' : String)
    (v : α) (h : (mapGet m k).isSome = true) :
    (mapGet (mapSet m k' v) k).isSome = true := by
  rw [mapGet] at h ⊢
  rw [Option.isSome_map'] at h
  rw [mapSet]
  split
  · rw [Option.isSome_map', find?_isSome_map_replace]
    exact h
  · rw [Option.isSome_map', List.find?_append]
    cases hf : List.find? (fun p => p.1 == k) m with
    | some q => simp [Option.orElse]
    | none => rw [hf] at h; simp at h

theorem getLLMClientForExpert_ok_key (cfg : DiscussionConfig) (env : Env)
    (cache : List (String × LLMClient)) (e : Expert)
    (hk : strTruthy env.openrouterApiKey = true) :
    ∃ p, getLLMClientForExpert cfg env cache e = .ok p := by
  have hjs : jsOr none env.openrouterApiKey = env.openrouterApiKey := by
    simp [jsOr, strTruthy]
  rw [getLLMClientForExpert]
  cases hg : mapGet cache (jsOrStr e.aiModel cfg.model) with
  | some c => exact ⟨_, rfl⟩
  | none =>
      simp only [LLMClient.construct]
      rw [hjs, hk]
      simp

theorem getLLMClientForExpert_ok_cached (cfg : DiscussionConfig) (env : Env)
    (cache : List (String × LLMClient)) (e : Expert)
    (hc : (mapGet cache (jsOrStr e.aiModel cfg.model)).isSome = true) :
    ∃ p, getLLMClientForExpert cfg env cache e = .ok p ∧ p.2 = cache := by
  rw [getLLMClientForExpert]
  cases hg : mapGet cache (jsOrStr e.aiModel cfg.model) with
  | some c => exact ⟨(c, cache), rfl, rfl⟩
  | none => rw [hg] at hc; simp at hc

theorem getLLMClientForExpert_cache_mono (cfg : DiscussionConfig) (env : Env)
    (cache : List (String × LLMClient)) (e : Expert)
    (p : LLMClient × List (String × LLMClient)) (k : String)
    (hok : getLLMClientForExpert cfg env cache e = .ok p)
    (hk : (mapGet cache k).isSome = true) :
    (mapGet p.2 k).isSome = true := by
  rw [getLLMClientForExpert] at hok
  cases hg : mapGet cache (jsOrStr e.aiModel cfg.model) with
  | some c =>
      rw [hg] at hok
      simp only [Except.ok.injEq] at hok
      rw [← hok]
      exact hk
  | none =>
      rw [hg] at hok
      cases hcon : LLMClient.construct
          { model := jsOrStr e.aiModel cfg.model, provider := .openrouter } env with
      | ok c =>
          rw [hcon] at hok
          simp only [Except.ok.injEq] at hok
          rw [← hok]
          exact mapGet_mapSet_isSome _ _ _ _ hk
      | error err => rw [hcon] at hok; simp at hok

/-! ### Absence of mid-run exceptions under available credentials -/

theorem runExpertTurn_none_of_key (cfg : DiscussionConfig) (env : Env)
    (ex : Exec) (e : Expert) (r : Nat)
    (hkey : strTruthy env.openrouterApiKey = true ∨
      (mapGet ex.cache (jsOrStr e.aiModel cfg.model)).isSome = true) :
    (runExpertTurn cfg env ex e r).thrown = none ∧
    ∀ k, (mapGet ex.cache k).isSome = true →
      (mapGet (runExpertTurn cfg env ex e r).exec.cache k).isSome = true := by
  obtain ⟨p, hok⟩ : ∃ p, getLLMClientForExpert cfg env ex.cache e = .ok p := by
    rcases hkey with hk | hk
    · exact getLLMClientForExpert_ok_key cfg env ex.cache e hk
    · obtain ⟨p, h1, -⟩ := getLLMClientForExpert_ok_cached cfg env ex.cache e hk
      exact ⟨p, h1⟩
  obtain ⟨c, cache1⟩ := p
  have hcache : (runExpertTurn cfg env ex e r).exec.cache = cache1 := by
    cases hs : env.streamResult ex.ctrs.stream with
    | success toks =>
        exact (runExpertTurn_success_shape cfg env ex e r hok hs).2.2.2.2
    | failure toks msg =>
        exact (runExpertTurn_failure_shape cfg env ex e r hok hs).2.2.2.2.2.2
  constructor
  · cases hs : env.streamResult ex.ctrs.stream with
    | success toks => exact (runExpertTurn_success_shape cfg env ex e r hok hs).1
    | failure toks msg => exact (runExpertTurn_failure_shape cfg env ex e r hok hs).1
  · intro k hk
    rw [hcache]
    exact getLLMClientForExpert_cache_mono cfg env ex.cache e (c, cache1) k hok hk

theorem runTurns_none_of_key (cfg : DiscussionConfig) (env : Env) (r : Nat)
    (experts : List Expert) (ex : Exec)
    (hkey : strTruthy env.openrouterApiKey = true ∨
      ∀ e ∈ experts, (mapGet ex.cache (jsOrStr e.aiModel cfg.model)).isSome = true) :
    (runTurns cfg env ex r experts).thrown = none ∧
    ∀ k, (mapGet ex.cache k).isSome = true →
      (mapGet (runTurns cfg env ex r experts).exec.cache k).isSome = true := by
  induction experts generalizing ex with
  | nil => exact ⟨rfl, fun k hk => hk⟩
  | cons e rest ih =>
      have hkey1 : strTruthy env.openrouterApiKey = true ∨
          (mapGet ex.cache (jsOrStr e.aiModel cfg.model)).isSome = true := by
        rcases hkey with hk | hk
        · exact Or.inl hk
        · exact Or.inr (hk e (by simp))
      obtain ⟨ht, hmono⟩ := runExpertTurn_none_of_key cfg env ex e r hkey1
      have hkeyrest : strTruthy env.openrouterApiKey = true ∨
          ∀ e' ∈ rest, (mapGet (runExpertTurn cfg env ex e r).exec.cache
            (jsOrStr e'.aiModel cfg.model)).isSome = true := by
        rcases hkey with hk | hk
        · exact Or.inl hk
        · exact Or.inr (fun e' he' => hmono _ (hk e' (by simp [he'])))
      obtain ⟨ht2, hmono2⟩ := ih (runExpertTurn cfg env ex e r).exec hkeyrest
      simp only [runTurns, ht]
      exact ⟨ht2, fun k hk => hmono2 k (hmono k hk)⟩

theorem runRound_none_of_key (cfg : DiscussionConfig) (env : Env) (ex : Exec)
    (r : Nat)
    (hkey : strTruthy env.openrouterApiKey = true ∨
      ∀ e ∈ cfg.experts, (mapGet ex.cache (jsOrStr e.aiModel cfg.model)).isSome = true) :
    (runRound cfg env ex r).thrown = none ∧
    ∀ k, (mapGet ex.cache k).isSome = true →
      (mapGet (runRound cfg env ex r).exec.cache k).isSome = true := by
  have hperm : (roundOrder cfg env ex r).Perm cfg.experts := by
    rw [roundOrder]
    split
    · exact List.Perm.refl _
    · exact shuffleArray_perm env cfg.experts ex.ctrs.pick
  have hkey' : strTruthy env.openrouterApiKey = true ∨
      ∀ e ∈ roundOrder cfg env ex r,
        (mapGet (roundStartExec cfg env ex r).cache
          (jsOrStr e.aiModel cfg.model)).isSome = true := by
    rcases hkey with hk | hk
    · exact Or.inl hk
    · exact Or.inr (fun e he => hk e (hperm.mem_iff.mp he))
  obtain ⟨ht, hmono⟩ := runTurns_none_of_key cfg env r (roundOrder cfg env ex r)
    (roundStartExec cfg env ex r) hkey'
  refine ⟨?_, ?_⟩
  · rw [runRound_thrown_eq]
    exact ht
  · intro k hk
    rw [runRound_cache_eq]
    exact hmono k hk

theorem runRounds_none_of_key (cfg : DiscussionConfig) (env : Env)
    (fuel : Nat) (ex : Exec) (roundNum : Nat) :
    (strTruthy env.openrouterApiKey = true ∨
      ∀ e ∈ cfg.experts,
        (mapGet ex.cache (jsOrStr e.aiModel cfg.model)).isSome = true) →
    (runRounds cfg env fuel ex roundNum).thrown = none := by
  induction fuel generalizing ex roundNum with
  | zero => intro hkey; rfl
  | succ fuel ih =>
      intro hkey
      rw [runRounds]
      cases ht : (runRound cfg env ex roundNum).thrown with
      | some e =>
          have := (runRound_none_of_key cfg env ex roundNum hkey).1
          rw [this] at ht
          simp at ht
      | none =>
          simp only [ht]
          by_cases he : earlyStop roundNum (runRound cfg env ex roundNum).events = true
          · rw [if_pos he]
          · rw [if_neg he]
            simp only
            apply ih
            rcases hkey with hk | hk
            · exact Or.inl hk
            · exact Or.inr (fun e he' =>
                (runRound_none_of_key cfg env ex roundNum (Or.inr hk)).2 _
                  (hk e he'))

/-! ### Moderator-message visibility in the next prompt -/

theorem lastN_append_singleton {α : Type} (l : List α) (m : α) (n : Nat)
    (hn : 1 ≤ n) :
    lastN (l ++ [m]) n = lastN l (n - 1) ++ [m] := by
  rw [lastN, lastN]
  have hlen : (l ++ [m]).length = l.length + 1 := by simp
  rw [hlen, List.drop_append_of_le_length (by omega)]
  congr 1
  congr 1
  omega

theorem append_moderator_line (a c : String) :
    a ++ "Moderator" ++ ": " ++ c ++ "\n" =
      a ++ ("Moderator: " ++ c ++ "\n") := by
  rw [String.append_assoc a "Moderator" ": "]
  rw [show ("Moderator" : String) ++ ": " = "Moderator: " from rfl]
  simp [String.append_assoc]

theorem getRecentContext_moderator (st : DiscussionState) (m : Message)
    (hrole : m.role = .MODERATOR) :
    ∃ pre : String,
      getRecentContext { st with messages := st.messages ++ [m] } =
        pre ++ ("Moderator: " ++ m.content ++ "\n") := by
  rw [getRecentContext]
  rw [if_neg (by simp)]
  simp only
  rw [lastN_append_singleton st.messages m 4 (by omega)]
  rw [List.foldl_append]
  simp only [List.foldl_cons, List.foldl_nil]
  rw [if_pos hrole]
  exact ⟨_, append_moderator_line _ _⟩

theorem getRoundSpecificQuestion_moderator (cfg : DiscussionConfig) (env : Env)
    (st : DiscussionState) (roundNum : Nat) (expert : Expert) (pc : Nat)
    (m : Message) (hrole : m.role = .MODERATOR) :
    ∃ q : String,
      (getRoundSpecificQuestion cfg env
          { st with messages := st.messages ++ [m] } roundNum expert pc).1 =
        q ++ moderatorCallout m.content := by
  rw [getRoundSpecificQuestion]
  simp only
  rw [lastN_append_singleton st.messages m 3 (by omega)]
  rw [List.filter_append]
  rw [show List.filter (fun msg => decide (msg.role = .MODERATOR)) [m] = [m] by
    simp [hrole]]
  rw [if_pos (by simp)]
  rw [List.getLast?_concat]
  exact ⟨_, rfl⟩

theorem buildPrompt_context_decomp (cfg : DiscussionConfig) (env : Env)
    (st : DiscussionState) (expert : Expert) (roundNum : Nat)
    (style : DebateStyle) (pc : Nat) :
    (buildPrompt cfg env st expert roundNum style pc).1 =
      (expert.systemPrompt ++ "\n\nDISCUSSION TOPIC: " ++ cfg.topic ++ "\n") ++
      getRecentContext st ++
      ("\n" ++ getExpertPreviousPoints st expert.name ++
        "\n\nROUND " ++ toString roundNum ++ " INSTRUCTIONS:\n- " ++
        STYLE_INSTRUCTIONS style ++
        "\n- Feel free to address other experts by name (" ++
        String.intercalate ", "
          ((cfg.experts.filter (fun e => !(e.name == expert.name))).map (·.name)) ++
        ")\n- Ask specific questions or request clarification if needed\n- Don" ++
        sq ++
        "t just agree - bring your unique perspective and expertise\n- If you disagree with something, explain why constructively\n- Build on ideas, challenge assumptions, or propose alternatives\n" ++
        getLanguageInstruction cfg ++
        "\n- " ++
        (if cfg.totalRounds ≤ roundNum then
          "Be very focused and conclusive in your final thoughts."
        else
          "Keep the discussion moving forward with fresh perspectives.") ++
        "\n\nSPECIFIC QUESTION FOR YOU: ") ++
      (getRoundSpecificQuestion cfg env st roundNum expert pc).1 ++
      ("\n\nRespond as " ++ expert.name ++ " (" ++ expert.role ++
        "). Keep focused and practical (under 350 words).\nMake this feel like a real expert discussion - engage directly with your colleagues!\n") := by
  rw [buildPrompt]
  simp [String.append_assoc]

theorem isInfix_data_left (s t : String) (l : List Char)
    (h : l.IsInfix t.data) : l.IsInfix (s ++ t).data := by
  obtain ⟨u, v, huv⟩ := h
  exact ⟨s.data ++ u, v, by rw [String.data_append, ← huv]; simp⟩

theorem isInfix_data_right (s t : String) (l : List Char)
    (h : l.IsInfix s.data) : l.IsInfix (s ++ t).data := by
  obtain ⟨u, v, huv⟩ := h
  exact ⟨u, v ++ t.data, by rw [String.data_append, ← huv]; simp⟩

/-! ### Relating `runDiscussion` to its round loop -/

theorem runDiscussion_events_eq (llmClient : LLMClient)
    (cfg : DiscussionConfig) (env : Env) :
    (runDiscussion llmClient cfg env).events =
      (runRounds cfg env cfg.totalRounds (startExec llmClient) 1).events := rfl

theorem runDiscussion_thrown_eq (llmClient : LLMClient)
    (cfg : DiscussionConfig) (env : Env) :
    (runDiscussion llmClient cfg env).thrown =
      (runRounds cfg env cfg.totalRounds (startExec llmClient) 1).thrown := rfl

/-! ### Claims -/

/-- C1 (amended): the engine never generates a Discussion Summary — the
event stream of `runDiscussion` contains zero `discussion_summary` events;
a run that terminates without a mid-run exception still ends with exactly
one `discussion_complete` event as its final event. -/
theorem summary_event_never_emitted (llmClient : LLMClient)
    (cfg : DiscussionConfig) (env : Env) :
    (runDiscussion llmClient cfg env).events.countP SSEEvent.isSummaryEvent = 0
    ∧ ((runDiscussion llmClient cfg env).thrown = none →
        ∃ pre, (runDiscussion llmClient cfg env).events =
            pre ++ [SSEEvent.discussion_complete ""]
          ∧ (runDiscussion llmClient cfg env).events.countP
              SSEEvent.isCompleteEvent = 1) := by
  constructor
  · rw [runDiscussion_events_eq]
    exact runRounds_no_summary cfg env cfg.totalRounds (startExec llmClient) 1
  · intro h
    rw [runDiscussion_thrown_eq] at h
    rw [runDiscussion_events_eq]
    exact runRounds_none_last cfg env cfg.totalRounds (startExec llmClient) 1 h

/-- C1 witness: on a concrete one-expert, one-round run the general theorem
yields a summary-free stream ending in `discussion_complete`. -/
theorem summary_event_never_emitted_witness :
    (runDiscussion clientA cfgA envA).events.countP SSEEvent.isSummaryEvent = 0
    ∧ ∃ pre, (runDiscussion clientA cfgA envA).events =
        pre ++ [SSEEvent.discussion_complete ""]
      ∧ (runDiscussion clientA cfgA envA).events.countP
          SSEEvent.isCompleteEvent = 1 :=
  ⟨(summary_event_never_emitted clientA cfgA envA).1,
   (summary_event_never_emitted clientA cfgA envA).2 (by decide)⟩

/-- C1 counterexample: a run of `runDiscussion` that terminates normally
(one `discussion_complete`, no exception) emits zero `discussion_summary`
events, refuting "generates a Discussion Summary exactly once and emits
exactly one discussion_summary event". -/
theorem summary_event_missing_on_terminating_run :
    (runDiscussion clientA cfgA envA).thrown = none
    ∧ (runDiscussion clientA cfgA envA).events.countP
        SSEEvent.isCompleteEvent = 1
    ∧ (runDiscussion clientA cfgA envA).events.countP
        SSEEvent.isSummaryEvent = 0 := by
  refine ⟨by decide, by decide, by decide⟩

/-- C2 (amended): a turn whose stream fails is not retried: exactly one
completion invocation is made (the stream counter advances by one), exactly
one `error` event is emitted, no message is appended, and the round then
proceeds with the remaining experts. -/
theorem failed_turn_no_retry (cfg : DiscussionConfig) (env : Env) (ex : Exec)
    (e : Expert) (roundNum : Nat) (rest : List Expert)
    (c : LLMClient) (cache1 : List (String × LLMClient))
    (toks : List String) (errMsg : String)
    (hc : getLLMClientForExpert cfg env ex.cache e = .ok (c, cache1))
    (hs : env.streamResult ex.ctrs.stream = .failure toks errMsg) :
    (runExpertTurn cfg env ex e roundNum).thrown = none
    ∧ (runExpertTurn cfg env ex e roundNum).exec.ctrs.stream =
        ex.ctrs.stream + 1
    ∧ (runExpertTurn cfg env ex e roundNum).events.countP
        SSEEvent.isErrorEvent = 1
    ∧ (runExpertTurn cfg env ex e roundNum).exec.st.messages = ex.st.messages
    ∧ expertStartIds (runTurns cfg env ex roundNum (e :: rest)).events =
        e.id :: expertStartIds (runTurns cfg env
          (runExpertTurn cfg env ex e roundNum).exec roundNum rest).events := by
  obtain ⟨h1, h2, h3, h4, h5, h6, h7⟩ :=
    runExpertTurn_failure_shape cfg env ex e roundNum hc hs
  refine ⟨h1, h6, ?_, h3, ?_⟩
  · rw [h2, List.countP_append, List.countP_append]
    have htoks : (toks.map SSEEvent.token).countP SSEEvent.isErrorEvent = 0 := by
      rw [List.countP_eq_zero]
      intro a ha
      obtain ⟨s, -, rfl⟩ := List.mem_map.mp ha
      simp [SSEEvent.isErrorEvent]
    rw [htoks]
    rfl
  · simp only [runTurns, h1]
    by_cases hm : cfg.moderatorMode = true
    · rw [if_pos hm, expertStartIds_append, expertStartIds_append,
        runExpertTurn_startIds]
      simp [expertStartIds]
    · rw [if_neg hm, expertStartIds_append, runExpertTurn_startIds]
      simp [expertStartIds]

/-- C2 witness: the no-retry theorem applied to a concrete failing turn. -/
theorem failed_turn_no_retry_witness :
    (runExpertTurn cfgA envFail exA expertE1 1).exec.ctrs.stream =
        exA.ctrs.stream + 1
    ∧ (runExpertTurn cfgA envFail exA expertE1 1).events.countP
        SSEEvent.isErrorEvent = 1
    ∧ (runExpertTurn cfgA envFail exA expertE1 1).exec.st.messages =
        exA.st.messages :=
  ⟨(failed_turn_no_retry cfgA envFail exA expertE1 1 [] clientA
      [("m0", clientA)] [] "boom" rfl rfl).2.1,
   (failed_turn_no_retry cfgA envFail exA expertE1 1 [] clientA
      [("m0", clientA)] [] "boom" rfl rfl).2.2.1,
   (failed_turn_no_retry cfgA envFail exA expertE1 1 [] clientA
      [("m0", clientA)] [] "boom" rfl rfl).2.2.2.1⟩

/-- C2 counterexample: with a stream that throws on every call, a failing
turn performs exactly one invocation attempt — not three — and emits one
`error` event, refuting the claimed retry/backoff behaviour. -/
theorem failed_turn_single_attempt_concrete :
    (runExpertTurn cfgA envFail exA expertE1 1).exec.ctrs.stream = 1
    ∧ ¬ (runExpertTurn cfgA envFail exA expertE1 1).exec.ctrs.stream = 3
    ∧ (runExpertTurn cfgA envFail exA expertE1 1).events.countP
        SSEEvent.isErrorEvent = 1
    ∧ (runExpertTurn cfgA envFail exA expertE1 1).events =
        [SSEEvent.expert_start "e1" "Ne1" "c" 1 DebateStyle.agreeable,
         SSEEvent.error "Error getting response from Ne1: boom"] := by
  refine ⟨by decide, by decide, by decide, by decide⟩

/-- C3 (amended): a missing credential makes the `LLMClient` constructor
fail fast — construction succeeds exactly when the config key or the
environment key is truthy — and when the environment credential is present,
or every expert resolves to the default client's model, a run never throws
and always ends with `discussion_complete`.  (Without that proviso the
engine can construct a client lazily mid-run and throw after events were
emitted; see the counterexample.) -/
theorem config_error_fail_fast (llmClient : LLMClient)
    (cfg : DiscussionConfig) (env : Env) (ccfg : LLMClientConfig) :
    ((∃ err, LLMClient.construct ccfg env = .error err) ↔
      strTruthy (jsOr ccfg.apiKey
        (match ccfg.provider with
          | .openrouter => env.openrouterApiKey
          | .openai => env.openaiApiKey)) = false)
    ∧ ((strTruthy env.openrouterApiKey = true ∨
          ∀ e ∈ cfg.experts, jsOrStr e.aiModel cfg.model = llmClient.model) →
        (runDiscussion llmClient cfg env).thrown = none
        ∧ ∃ pre, (runDiscussion llmClient cfg env).events =
            pre ++ [SSEEvent.discussion_complete ""]) := by
  constructor
  · cases hkey : strTruthy (jsOr ccfg.apiKey
        (match ccfg.provider with
          | .openrouter => env.openrouterApiKey
          | .openai => env.openaiApiKey)) with
    | true =>
        simp only [LLMClient.construct, hkey, if_true]
        simp
    | false =>
        simp only [LLMClient.construct, hkey]
        simp
  · intro hkey
    have hcache : ∀ e ∈ cfg.experts,
        (mapGet (startExec llmClient).cache
          (jsOrStr e.aiModel cfg.model)).isSome = true ∨
        strTruthy env.openrouterApiKey = true := by
      intro e he
      rcases hkey with hk | hk
      · exact Or.inr hk
      · left
        rw [hk e he]
        simp [startExec, mkEngine, mapGet]
    have hkey' : strTruthy env.openrouterApiKey = true ∨
        ∀ e ∈ cfg.experts,
          (mapGet (startExec llmClient).cache
            (jsOrStr e.aiModel cfg.model)).isSome = true := by
      rcases hkey with hk | hk
      · exact Or.inl hk
      · right
        intro e he
        rw [hk e he]
        simp [startExec, mkEngine, mapGet]
    have hthrown := runRounds_none_of_key cfg env cfg.totalRounds
      (startExec llmClient) 1 hkey'
    refine ⟨by rw [runDiscussion_thrown_eq]; exact hthrown, ?_⟩
    obtain ⟨pre, hpre, -⟩ := runRounds_none_last cfg env cfg.totalRounds
      (startExec llmClient) 1 hthrown
    exact ⟨pre, by rw [runDiscussion_events_eq]; exact hpre⟩

/-- C3 witness: the liveness half applied to a concrete run with the
credential present, and the fail-fast half at a concrete client config. -/
theorem config_error_fail_fast_witness :
    ((runDiscussion clientA cfgA envA).thrown = none
      ∧ ∃ pre, (runDiscussion clientA cfgA envA).events =
          pre ++ [SSEEvent.discussion_complete ""])
    ∧ (∃ err, LLMClient.construct { model := "m1" } envNoKey = .error err) :=
  ⟨(config_error_fail_fast clientA cfgA envA { model := "m1" }).2
      (Or.inl (by decide)),
   ((config_error_fail_fast clientA cfgA envNoKey { model := "m1" }).1).mpr
      (by decide)⟩

/-- C3 counterexample: with no environment credential and a default client
that was constructed with an explicit key, the single expert's model
override forces a mid-run client construction, which throws after the
turn's `expert_start` was already emitted; no `discussion_complete`
follows.  This refutes "failure at construction time, before any discussion
event ... and never mid-stream" and the consequent "once a run has started
it always eventually emits a discussion_complete event". -/
theorem credential_error_mid_stream_concrete :
    (runDiscussion clientA cfgC envNoKey).events =
      [SSEEvent.expert_start "e1" "Ne1" "c" 1 DebateStyle.agreeable]
    ∧ (runDiscussion clientA cfgC envNoKey).thrown = some
        ("API key not found for provider openrouter. Set OPENROUTER_API_KEY environment variable.")
    ∧ (runDiscussion clientA cfgC envNoKey).events.countP
        SSEEvent.isCompleteEvent = 0 := by
  refine ⟨by decide, by decide, by decide⟩

/-- C4 (amended): there is no minimum-length validation of the accumulated
text: whenever the stream completes, the engine appends a `Message` whose
content is exactly the concatenation of the received fragments — however
short — emits `expert_complete` as the turn's final event, and emits no
error; the retry path does not exist. -/
theorem stream_completion_always_appends (cfg : DiscussionConfig) (env : Env)
    (ex : Exec) (e : Expert) (roundNum : Nat) (c : LLMClient)
    (cache1 : List (String × LLMClient)) (toks : List String)
    (hc : getLLMClientForExpert cfg env ex.cache e = .ok (c, cache1))
    (hs : env.streamResult ex.ctrs.stream = .success toks) :
    (runExpertTurn cfg env ex e roundNum).thrown = none
    ∧ ∃ message : Message, message.content = String.join toks
        ∧ (runExpertTurn cfg env ex e roundNum).exec.st.messages =
            ex.st.messages ++ [message]
        ∧ (runExpertTurn cfg env ex e roundNum).events.getLast? =
            some (SSEEvent.expert_complete message.id e.id (String.join toks))
        ∧ (runExpertTurn cfg env ex e roundNum).events.countP
            SSEEvent.isErrorEvent = 0 := by
  obtain ⟨h1, ⟨message, hm1, hm2, hm3⟩, h3, h4, h5⟩ :=
    runExpertTurn_success_shape cfg env ex e roundNum hc hs
  refine ⟨h1, message, hm1, hm2, ?_, ?_⟩
  · rw [hm3, List.append_assoc, List.getLast?_append]
    simp
  · rw [hm3, List.countP_append, List.countP_append]
    have htoks : (toks.map SSEEvent.token).countP SSEEvent.isErrorEvent = 0 := by
      rw [List.countP_eq_zero]
      intro a ha
      obtain ⟨s, -, rfl⟩ := List.mem_map.mp ha
      simp [SSEEvent.isErrorEvent]
    rw [htoks]
    rfl

/-- C4 witness: the always-append theorem at a concrete turn whose stream
yields only the two characters "hi". -/
theorem stream_completion_always_appends_witness :
    (runExpertTurn cfgA envA exA expertE1 1).thrown = none
    ∧ ∃ message : Message, message.content = String.join ["hi"]
        ∧ (runExpertTurn cfgA envA exA expertE1 1).exec.st.messages =
            exA.st.messages ++ [message]
        ∧ (runExpertTurn cfgA envA exA expertE1 1).events.getLast? =
            some (SSEEvent.expert_complete message.id expertE1.id
              (String.join ["hi"]))
        ∧ (runExpertTurn cfgA envA exA expertE1 1).events.countP
            SSEEvent.isErrorEvent = 0 :=
  stream_completion_always_appends cfgA envA exA expertE1 1 clientA
    [("m0", clientA)] ["hi"] rfl rfl

/-- C4 counterexample: a stream completing with the 2-character text "hi"
(far below the claimed ~20-character minimum) is not treated as a failure:
the message is appended to the log, `expert_complete` is emitted, and no
error or retry occurs — refuting the claimed too-short-content check. -/
theorem short_content_appended_concrete :
    (runExpertTurn cfgA envA exA expertE1 1).exec.st.messages.map
        Message.content = ["hi"]
    ∧ ("hi" : String).length < 20
    ∧ (runExpertTurn cfgA envA exA expertE1 1).events.countP
        SSEEvent.isExpertCompleteEvent = 1
    ∧ (runExpertTurn cfgA envA exA expertE1 1).events.countP
        SSEEvent.isErrorEvent = 0
    ∧ (runExpertTurn cfgA envA exA expertE1 1).exec.ctrs.stream = 1 := by
  refine ⟨by decide, by decide, by decide, by decide, by decide⟩

/-- C5: within any single round, two `expert_start` events carrying
`challenging` always have a full-set reset between (or at) them — so
`challenging` never appears twice before every other style appeared, except
after a full-set reset (stated both in the claim's conditional form and as
the underlying reset-existence fact) — and the selector force-selects
`challenging` whenever at least two styles are used and `challenging` is
not among them. -/
theorem challenging_style_round_invariant (cfg : DiscussionConfig)
    (env : Env) (ex : Exec) (roundNum : Nat) :
    (∀ i j : Nat, i < j →
      (expertStartStyles (runRound cfg env ex roundNum).events).get? i =
        some DebateStyle.challenging →
      (expertStartStyles (runRound cfg env ex roundNum).events).get? j =
        some DebateStyle.challenging →
      (∀ m, i ≤ m → m ≤ j → isFullStyleSet (usedBeforeStyle
          (expertStartStyles (runRound cfg env ex roundNum).events) m) = false) →
      ∀ s ∈ DEBATE_STYLES,
        s ∈ (expertStartStyles (runRound cfg env ex roundNum).events).take j)
    ∧ (∀ i j : Nat, i < j →
      (expertStartStyles (runRound cfg env ex roundNum).events).get? i =
        some DebateStyle.challenging →
      (expertStartStyles (runRound cfg env ex roundNum).events).get? j =
        some DebateStyle.challenging →
      ∃ m, i ≤ m ∧ m ≤ j ∧ isFullStyleSet (usedBeforeStyle
          (expertStartStyles (runRound cfg env ex roundNum).events) m) = true)
    ∧ (∀ (used : List DebateStyle) (pc : Nat),
        DebateStyle.challenging ∉ used → 2 ≤ used.length →
        (getDebateStyle env pc used).1 = DebateStyle.challenging) := by
  have htrace := runRound_styleTrace cfg env ex roundNum
  have hdup := styleTrace_dup_reset htrace
  refine ⟨?_, ?_, ?_⟩
  · intro i j hij hi hj hnone s hs
    obtain ⟨m, hm1, hm2, hfull⟩ := hdup i j DebateStyle.challenging hij hi hj
    have hnm := hnone m hm1 hm2
    rw [usedBeforeStyle] at hnm
    rw [hnm] at hfull
    cases hfull
  · intro i j hij hi hj
    exact hdup i j DebateStyle.challenging hij hi hj
  · intro used pc hch hlen
    have hmem : DebateStyle.challenging ∈
        DEBATE_STYLES.filter (fun style => decide (style ∉ used)) := by
      simp [DEBATE_STYLES, hch]
    have hne : DEBATE_STYLES.filter (fun style => decide (style ∉ used)) ≠ [] := by
      intro hnil
      rw [hnil] at hmem
      simp at hmem
    have hfe : (DEBATE_STYLES.filter
        (fun style => decide (style ∉ used))).isEmpty = false := by
      cases hh : (DEBATE_STYLES.filter
          (fun style => decide (style ∉ used))).isEmpty
      · rfl
      · exact absurd (List.isEmpty_iff.mp hh) hne
    simp only [getDebateStyle]
    rw [hfe]
    rw [if_neg (by simp), if_pos ⟨hch, hlen⟩]

/-- C5 witness: in a concrete eight-expert round the styles run
`[agreeable, challenging, questioning, building, contrasting, agreeable,
agreeable, challenging]`; the two `challenging` picks (positions 1 and 7)
have the full-set reset at position 5 between them, and the selector
force-selects `challenging` from a concrete two-style used-set. -/
theorem challenging_style_round_invariant_witness :
    (∃ m, 1 ≤ m ∧ m ≤ 7 ∧ isFullStyleSet (usedBeforeStyle
        (expertStartStyles (runRound cfgD envA exA 1).events) m) = true)
    ∧ (getDebateStyle envA 0
        [DebateStyle.agreeable, DebateStyle.building]).1 =
          DebateStyle.challenging :=
  ⟨(challenging_style_round_invariant cfgD envA exA 1).2.1 1 7 (by decide)
      (by decide) (by decide),
   (challenging_style_round_invariant cfgD envA exA 1).2.2
      [DebateStyle.agreeable, DebateStyle.building] 0 (by decide) (by decide)⟩

/-- C6: whenever the event stream of a run contains a `round_complete`
event for a round `r ≥ 3` with consensus score above `0.85`, everything
after it is exactly one `discussion_complete` event: no further
`round_complete` or `expert_start` events occur, regardless of the
configured `totalRounds`. -/
theorem early_consensus_terminates_run (llmClient : LLMClient)
    (cfg : DiscussionConfig) (env : Env) (l₁ l₂ : List SSEEvent)
    (r : Nat) (s : ℚ)
    (hsplit : (runDiscussion llmClient cfg env).events =
        l₁ ++ SSEEvent.round_complete r s :: l₂)
    (hr : 3 ≤ r) (hs : (0.85 : ℚ) < s) :
    l₂ = [SSEEvent.discussion_complete ""] := by
  rw [runDiscussion_events_eq] at hsplit
  exact runRounds_early_split cfg env cfg.totalRounds (startExec llmClient) 1
    l₁ l₂ r s hsplit hr hs

/-- C6 witness: a concrete two-expert run configured for five rounds whose
round-3 consensus comes back as 0.9 stops right after round 3's
`round_complete`. -/
theorem early_consensus_terminates_run_witness :
    ((runDiscussion clientA cfgB envA).events =
        eventsPrefixB ++ SSEEvent.round_complete 3 (9 / 10 : ℚ) ::
          [SSEEvent.discussion_complete ""])
    ∧ (0.85 : ℚ) < 9 / 10
    ∧ [SSEEvent.discussion_complete ""] = [SSEEvent.discussion_complete ""] :=
  ⟨by with_unfolding_all decide, by norm_num,
   early_consensus_terminates_run clientA cfgB envA eventsPrefixB
     [SSEEvent.discussion_complete ""] 3 (9 / 10)
     (by with_unfolding_all decide) (by norm_num) (by norm_num)⟩

/-- C7: consensus analysis on a state with fewer than five messages returns
exactly `0` and leaves the non-streaming call counter untouched — zero
completion-client invocations. -/
theorem consensus_zero_no_call (st : DiscussionState) (env : Env) (gc : Nat)
    (h : st.messages.length < 5) :
    analyzeConsensus st env gc = (0, gc) := by
  rw [analyzeConsensus, if_pos h]

/-- C7 witness: the freshly constructed engine state has zero messages, and
consensus analysis on it returns `0` without bumping the call counter. -/
theorem consensus_zero_no_call_witness :
    initialState.messages.length < 5
    ∧ analyzeConsensus initialState envA 0 = (0, 0) :=
  ⟨by decide, consensus_zero_no_call initialState envA 0 (by decide)⟩

/-- C8: a round that completes without an exception runs its experts in
roster order exactly when `totalRounds ≤ r` and `4 ≤ totalRounds`, and
otherwise in the order of a fresh oracle shuffle, which is a permutation of
the roster; in particular with `totalRounds = 3` every round — including
round 3 — uses the shuffled order, never the roster-order final-round
path. -/
theorem final_round_roster_order (cfg : DiscussionConfig) (env : Env)
    (ex : Exec) (r : Nat) (h : (runRound cfg env ex r).thrown = none) :
    (expertStartIds (runRound cfg env ex r).events =
      (if cfg.totalRounds ≤ r ∧ 4 ≤ cfg.totalRounds then cfg.experts
        else (shuffleArray env cfg.experts ex.ctrs.pick).1).map Expert.id)
    ∧ (shuffleArray env cfg.experts ex.ctrs.pick).1.Perm cfg.experts
    ∧ (cfg.totalRounds = 3 →
        expertStartIds (runRound cfg env ex r).events =
          ((shuffleArray env cfg.experts ex.ctrs.pick).1).map Expert.id) := by
  have h1 := runRound_startIds cfg env ex r h
  refine ⟨by rw [h1, roundOrder], shuffleArray_perm env cfg.experts ex.ctrs.pick, ?_⟩
  intro h3
  rw [h1, roundOrder, if_neg (fun hcon => by omega)]

/-- C8 witness: a concrete non-final round takes the shuffle branch and its
`expert_start` order is a permutation of the roster. -/
theorem final_round_roster_order_witness :
    expertStartIds (runRound cfgB envA exA 1).events = ["e1", "e2"]
    ∧ (shuffleArray envA cfgB.experts exA.ctrs.pick).1.Perm cfgB.experts := by
  have h := final_round_roster_order cfgB envA exA 1 (by decide)
  exact ⟨h.1.trans (by decide), h.2.1⟩

/-- C9: appending a moderator message between two turns produces a
`MODERATOR`-role message with the given content, appended to the log with
no event emitted (the operation's result carries no events); the very next
turn's prompt contains that message rendered as a `Moderator: content`
line in the recent-context section, and also the appended moderator-callout
instruction quoting the comment and asking the expert to address it. -/
theorem moderator_message_in_next_prompt (cfg : DiscussionConfig) (env : Env)
    (st : DiscussionState) (content : String) (nc : Nat) (expert : Expert)
    (roundNum : Nat) (style : DebateStyle) (pc : Nat) :
    (addModeratorMessage env st content nc).1.role = MessageRole.MODERATOR
    ∧ (addModeratorMessage env st content nc).1.content = content
    ∧ (addModeratorMessage env st content nc).2.1.messages =
        st.messages ++ [(addModeratorMessage env st content nc).1]
    ∧ List.IsInfix ("Moderator: " ++ content ++ "\n").data
        (buildPrompt cfg env (addModeratorMessage env st content nc).2.1
          expert roundNum style pc).1.data
    ∧ List.IsInfix (moderatorCallout content).data
        (buildPrompt cfg env (addModeratorMessage env st content nc).2.1
          expert roundNum style pc).1.data := by
  have hst : (addModeratorMessage env st content nc).2.1 =
      { st with messages :=
          st.messages ++ [(addModeratorMessage env st content nc).1] } := rfl
  obtain ⟨pre, hpre⟩ :=
    getRecentContext_moderator st (addModeratorMessage env st content nc).1 rfl
  obtain ⟨q, hq⟩ :=
    getRoundSpecificQuestion_moderator cfg env st roundNum expert pc
      (addModeratorMessage env st content nc).1 rfl
  refine ⟨rfl, rfl, rfl, ?_, ?_⟩
  · rw [hst, buildPrompt_context_decomp, hpre]
    apply isInfix_data_right
    apply isInfix_data_right
    apply isInfix_data_right
    apply isInfix_data_left
    apply isInfix_data_left
    exact List.infix_refl _
  · rw [hst, buildPrompt_context_decomp, hq]
    apply isInfix_data_right
    apply isInfix_data_left
    apply isInfix_data_left
    exact List.infix_refl _

/-- C10 (amended): when the streaming client throws mid-turn — possibly
after some token events were already yielded — the turn emits the start
event, one token event per yielded fragment and a single error event, and
the message log and tracked expert positions are exactly as before the
turn (the partial text is discarded, no `Message` is appended); the
round's used-styles set records the selected style exactly when the set
was not yet full at selection time, and is reset to empty — with the
selected style unrecorded — when it was full. -/
theorem stream_failure_preserves_state (cfg : DiscussionConfig) (env : Env)
    (ex : Exec) (e : Expert) (r : Nat) (c : LLMClient)
    (cache1 : List (String × LLMClient)) (toks : List String) (errMsg : String)
    (hc : getLLMClientForExpert cfg env ex.cache e = .ok (c, cache1))
    (hs : env.streamResult ex.ctrs.stream = .failure toks errMsg) :
    (runExpertTurn cfg env ex e r).events =
        [SSEEvent.expert_start e.id e.name e.color r (turnStyle env ex)] ++
        toks.map SSEEvent.token ++
        [SSEEvent.error ("Error getting response from " ++ e.name ++ ": " ++
          errMsg)]
    ∧ (runExpertTurn cfg env ex e r).exec.st.messages = ex.st.messages
    ∧ (runExpertTurn cfg env ex e r).exec.st.expertPositions =
        ex.st.expertPositions
    ∧ (isFullStyleSet ex.st.usedStylesThisRound = false →
        (runExpertTurn cfg env ex e r).exec.st.usedStylesThisRound =
          ex.st.usedStylesThisRound ++ [turnStyle env ex])
    ∧ (isFullStyleSet ex.st.usedStylesThisRound = true →
        (runExpertTurn cfg env ex e r).exec.st.usedStylesThisRound = []) := by
  obtain ⟨-, hev, hmsg, hpos, hused, -, -⟩ :=
    runExpertTurn_failure_shape cfg env ex e r hc hs
  refine ⟨hev, hmsg, hpos, ?_, ?_⟩
  · intro hnotfull
    rw [hused]
    rcases getDebateStyle_step env ex.ctrs.pick ex.st.usedStylesThisRound with
      ⟨hf, _⟩ | ⟨_, _, heq⟩
    · rw [hf] at hnotfull
      cases hnotfull
    · rw [heq, turnStyle]
  · intro hfull
    rw [hused]
    rcases getDebateStyle_step env ex.ctrs.pick ex.st.usedStylesThisRound with
      ⟨_, hempty⟩ | ⟨hf, _, _⟩
    · exact hempty
    · rw [hfull] at hf
      cases hf

/-- C10 witness: a concrete mid-stream failure (two fragments, then a
throw) on a fresh engine keeps the log unchanged and records the selected
style in the (previously non-full, in fact empty) used-set. -/
theorem stream_failure_preserves_state_witness :
    getLLMClientForExpert cfgA envFailTok exA.cache expertE1 =
        .ok (clientA, exA.cache)
    ∧ envFailTok.streamResult exA.ctrs.stream = .failure ["par", "tial"] "boom"
    ∧ (runExpertTurn cfgA envFailTok exA expertE1 1).exec.st.messages =
        exA.st.messages
    ∧ (isFullStyleSet exA.st.usedStylesThisRound = false →
        (runExpertTurn cfgA envFailTok exA expertE1 1).exec.st.usedStylesThisRound
          = exA.st.usedStylesThisRound ++ [turnStyle envFailTok exA]) :=
  ⟨rfl, rfl,
   (stream_failure_preserves_state cfgA envFailTok exA expertE1 1 clientA
      exA.cache ["par", "tial"] "boom" rfl rfl).2.1,
   fun h => (stream_failure_preserves_state cfgA envFailTok exA expertE1 1
      clientA exA.cache ["par", "tial"] "boom" rfl rfl).2.2.2.1 h⟩

/-- C10 counterexample to the claim as stated: a failed turn entered with a
full used-set takes the reset branch, so the style it selected is NOT
recorded — the turn's `expert_start` event carries `agreeable`, yet the
post-turn used-set is empty and does not contain it (the log is still
preserved). -/
theorem reset_branch_style_unrecorded_concrete :
    (runExpertTurn cfgA envFail exFull expertE1 1).exec.st.messages =
        exFull.st.messages
    ∧ expertStartStyles (runExpertTurn cfgA envFail exFull expertE1 1).events =
        [DebateStyle.agreeable]
    ∧ (runExpertTurn cfgA envFail exFull expertE1 1).exec.st.usedStylesThisRound
        = []
    ∧ DebateStyle.agreeable ∉
        (runExpertTurn cfgA envFail exFull expertE1 1).exec.st.usedStylesThisRound :=
  ⟨rfl, rfl, rfl, by decide⟩

end Roundtable
